import Mathlib

/-! TWIMaster.h : the interrupt-safe command queue `twiQueue`

A shallow embedding of `src/TWIMaster.h`.

* `qindex` is C `int`; it is embedded as `Int`.  The only arithmetic done on
  an index is `(index + 1) & qMask`, embedded with `Int.land`.
* `char` / `uint8_t` values are embedded as the natural number of their 8-bit
  pattern; a narrowing conversion `int → char` is an explicit `% 256`.
* `char *buff` is embedded as the natural number of the pointer value.
* A function pointer `callback_fp` is embedded as a tag: the null pointer, the
  class's own `blocking_callback`, or some user function.
* A `state_t*` into `queue` is embedded as the index of the slot it points to,
  `NOSTATE` as `none`.
* The class members live in the structure `twiQueue`, together with the part
  of the machine the member functions touch: the status register `SREG`, and
  two logs, `kicks` (the calls of `kick_isr`) and `calls` (the calls made
  through a `callback_fp`).
-/

namespace TWIMaster

/-! ## Constants (lines 21-25, 44) -/

def TWI_READ_BIT : Nat := 0
def TWI_ADR_BITS : Nat := 1
def STATE_SUCCESS_BIT : Nat := 0
def STATE_TIMEOUT_BIT : Nat := 1
def NQBits : Nat := 4

/-! ## Types (lines 47-59) -/

/-- `typedef int qindex;` -/
abbrev qindex := Int

/-- `typedef void (*callback_fp)(struct state_s*);` -/
inductive callback_fp where
  | NULL : callback_fp
  | blocking_callback : callback_fp
  | user (f : Nat) : callback_fp
deriving DecidableEq

/-- `struct state_s` : one transaction record. -/
structure state_s where
  buff : Nat
  addr : Nat
  state : Nat
  len : Nat
  donefunc : callback_fp
deriving DecidableEq

/-- `enum { qSize = (1<<NQBits), ... }` -/
def qSize : Int := ((1 <<< NQBits : Nat) : Int)

/-- `enum { ..., qMask = (1<<NQBits)-1 }` -/
def qMask : Int := ((1 <<< NQBits : Nat) : Int) - 1

/-- The class `twiQueue` (lines 62-68, 158-160) with the machine state its
member functions touch. -/
structure twiQueue where
  queue : Int → state_s
  iCmd : Int
  iCallback : Int
  iFree : Int
  _blocking_callback_called : Bool
  _blocking_state : Nat
  _blocking_donefunc : callback_fp
  SREG : Nat
  kicks : Nat
  calls : List (callback_fp × Int)

/-- The constructor `twiQueue() : iCmd(0), iCallback(0), iFree(0)` (line 71).
The array is not written by it: its content at construction is `mem`.  The
static members have static storage and start zeroed, `sreg` is the status
register at that time, and the two logs start empty. -/
def twiQueue.construct (mem : Int → state_s) (sreg : Nat) : twiQueue :=
  { queue := mem, iCmd := 0, iCallback := 0, iFree := 0,
    _blocking_callback_called := false, _blocking_state := 0,
    _blocking_donefunc := callback_fp.NULL,
    SREG := sreg, kicks := 0, calls := [] }

/-! ## Index helpers (lines 74-80) -/

/-- `nextIndex` : `return (index + 1) & qMask;` -/
def nextIndex (index : Int) : Int := Int.land (index + 1) qMask

/-- `validIndex` : `return 0 <= index && index < qSize;` -/
def validIndex (index : Int) : Bool := decide (0 ≤ index) && decide (index < qSize)

/-! ## Cursor operations (lines 82-127) -/

/-- `allocFree` (lines 85-96): the index of the slot handed out (`none` for
`NOSTATE`) and the queue afterwards. -/
def allocFree (q : twiQueue) : Option Int × twiQueue :=
  let old := q.iFree
  let i := nextIndex q.iFree
  if i = q.iCallback then
    (none, q)
  else
    (some old, { q with iFree := i })

/-- `currCmd` : `return queue[iCmd];` -/
def currCmd (q : twiQueue) : state_s := q.queue q.iCmd

/-- `doneCmd` : `iCmd = nextIndex(iCmd);` -/
def doneCmd (q : twiQueue) : twiQueue := { q with iCmd := nextIndex q.iCmd }

/-- `hasCmd` : `return iCmd != iFree;` -/
def hasCmd (q : twiQueue) : Bool := decide (q.iCmd ≠ q.iFree)

/-- `currCallback` : `return queue[iCallback];` -/
def currCallback (q : twiQueue) : state_s := q.queue q.iCallback

/-- `doneCallback` : `iCallback = nextIndex(iCallback);` -/
def doneCallback (q : twiQueue) : twiQueue := { q with iCallback := nextIndex q.iCallback }

/-- `hasCallback` : `return iCallback != iCmd;` -/
def hasCallback (q : twiQueue) : Bool := decide (q.iCallback ≠ q.iCmd)

/-! ## Machine primitives used by the enqueue paths -/

/-- Modelled from the spec: `kick_isr` is declared at line 40 and defined
elsewhere; it is the signal that tells the bus engine to start.  The model
records the call in `kicks`. -/
def kick_isr (q : twiQueue) : twiQueue := { q with kicks := q.kicks + 1 }

/-- The interrupt-enable flag of `SREG` is bit 7. -/
def SREG_I : Nat := 7

/-- `cli()` : clear the interrupt-enable flag. -/
def cli (q : twiQueue) : twiQueue :=
  { q with SREG := if q.SREG.testBit SREG_I then q.SREG - 2 ^ SREG_I else q.SREG }

/-- `sei()` : set the interrupt-enable flag. -/
def sei (q : twiQueue) : twiQueue :=
  { q with SREG := if q.SREG.testBit SREG_I then q.SREG else q.SREG + 2 ^ SREG_I }

/-- A store through a `state_t*` : replace the slot at index `p`. -/
def twiQueue.store (q : twiQueue) (p : Int) (f : state_s → state_s) : twiQueue :=
  { q with queue := Function.update q.queue p (f (q.queue p)) }

/-! ## Non-blocking enqueue (lines 129-156, 189-202) -/

/-- `enqueue_rw_crit` (lines 131-145). -/
def enqueue_rw_crit (q : twiQueue) (addr_rw data len : Nat) (donefunc : callback_fp) :
    Bool × twiQueue :=
  match allocFree q with
  | (none, q1) => (false, q1)
  | (some p, q1) =>
    let q2 := q1.store p (fun s => { s with buff := data })
    let q3 := q2.store p (fun s => { s with addr := addr_rw })
    let q4 := q3.store p (fun s => { s with len := len })
    let q5 := q4.store p (fun s => { s with donefunc := donefunc })
    (true, kick_isr q5)

/-- `enqueue_rw` (lines 147-156): `enqueue_rw_crit` inside
`sreg = SREG; cli(); ...; SREG = sreg;`. -/
def enqueue_rw (q : twiQueue) (addr_rw data len : Nat) (donefunc : callback_fp) :
    Bool × twiQueue :=
  let sreg := q.SREG
  let q1 := cli q
  let r := enqueue_rw_crit q1 addr_rw data len donefunc
  (r.1, { r.2 with SREG := sreg })

/-- The argument `(addr<<TWI_ADR_BITS) | (1<<TWI_READ_BIT)` of lines 191 and
196, converted to the `char` parameter `addr_rw`. -/
def addr_read (addr : Nat) : Nat := ((addr <<< TWI_ADR_BITS) ||| (1 <<< TWI_READ_BIT)) % 256

/-- The argument `(addr<<TWI_ADR_BITS) | (0<<TWI_READ_BIT)` of lines 201 and
206, converted to the `char` parameter `addr_rw`. -/
def addr_write (addr : Nat) : Nat := ((addr <<< TWI_ADR_BITS) ||| (0 <<< TWI_READ_BIT)) % 256

/-- `enqueue_r` (lines 190-192). -/
def enqueue_r (q : twiQueue) (addr data len : Nat) (donefunc : callback_fp) :
    Bool × twiQueue :=
  enqueue_rw q (addr_read addr) data len donefunc

/-- `enqueue_w` (lines 200-202). -/
def enqueue_w (q : twiQueue) (addr data len : Nat) (donefunc : callback_fp) :
    Bool × twiQueue :=
  enqueue_rw q (addr_write addr) data len donefunc

/-! ## Blocking enqueue (lines 158-186, 195-207) -/

/-- The busy-wait `while (!_blocking_callback_called) {}` (lines 181-182).
Interrupts are enabled while it spins; `isr` is what the interrupt context
does to the machine during one turn of the loop.  `fuel` bounds the number of
turns; `none` means the flag was still clear when the fuel ran out. -/
def wait_called (isr : twiQueue → twiQueue) : Nat → twiQueue → Option twiQueue
  | 0, q => if q._blocking_callback_called then some q else none
  | fuel + 1, q =>
    if q._blocking_callback_called then some q else wait_called isr fuel (isr q)

/-- The retry loop `while (!enqueue_rw_crit(...)) { sei(); nop; cli(); }`
(lines 172-178).  `isr` runs in the window opened by `sei()`. -/
def enqueue_retry (isr : twiQueue → twiQueue) (addr_rw data len : Nat) :
    Nat → twiQueue → Option twiQueue
  | 0, q =>
    match enqueue_rw_crit q addr_rw data len callback_fp.blocking_callback with
    | (true, q1) => some q1
    | (false, _) => none
  | fuel + 1, q =>
    match enqueue_rw_crit q addr_rw data len callback_fp.blocking_callback with
    | (true, q1) => some q1
    | (false, q1) => enqueue_retry isr addr_rw data len fuel (cli (isr (sei q1)))

/-- The conversion to `bool` of `_blocking_state & (1<<STATE_SUCCESS_BIT)`
(line 185). -/
def success_of (state : Nat) : Bool := decide (state &&& (1 <<< STATE_SUCCESS_BIT) ≠ 0)

/-- `enqueue_rwb` (lines 164-186).  `none` means one of its two loops had not
finished when `fuel` turns were used up. -/
def enqueue_rwb (isr : twiQueue → twiQueue) (fuel : Nat) (q : twiQueue)
    (addr_rw data len : Nat) (donefunc : callback_fp) : Option (Bool × twiQueue) :=
  let q1 := { q with _blocking_callback_called := false }
  let q2 := { q1 with _blocking_donefunc := donefunc }
  let sreg := q2.SREG
  let q3 := cli q2
  match enqueue_retry isr addr_rw data len fuel q3 with
  | none => none
  | some q4 =>
    match wait_called isr fuel (sei q4) with
    | none => none
    | some q5 =>
      let q6 := { q5 with SREG := sreg }
      some (success_of q6._blocking_state, q6)

/-- `enqueue_rb` (lines 195-197). -/
def enqueue_rb (isr : twiQueue → twiQueue) (fuel : Nat) (q : twiQueue)
    (addr data len : Nat) (donefunc : callback_fp) : Option (Bool × twiQueue) :=
  enqueue_rwb isr fuel q (addr_read addr) data len donefunc

/-- `enqueue_wb` (lines 205-207). -/
def enqueue_wb (isr : twiQueue → twiQueue) (fuel : Nat) (q : twiQueue)
    (addr data len : Nat) (donefunc : callback_fp) : Option (Bool × twiQueue) :=
  enqueue_rwb isr fuel q (addr_write addr) data len donefunc

/-! ## The external bus engine, as far as the specification fixes it -/

/-- Modelled from the spec: `blocking_callback` is declared at line 161 and
defined elsewhere.  Section 4.2: "The bridging callback: records status,
invokes the user callback if present, sets the fired flag."  `p` is the slot
it is called with. -/
def blocking_callback (q : twiQueue) (p : Int) : twiQueue :=
  let q1 := { q with _blocking_state := (q.queue p).state }
  let q2 :=
    if q1._blocking_donefunc = callback_fp.NULL then q1
    else { q1 with calls := q1.calls ++ [(q1._blocking_donefunc, p)] }
  { q2 with _blocking_callback_called := true }

/-- A call through the function pointer `f` with argument `&queue[p]`: the
null pointer is not called, `blocking_callback` runs, a user function is
logged. -/
def invoke (q : twiQueue) (f : callback_fp) (p : Int) : twiQueue :=
  match f with
  | callback_fp.NULL => q
  | callback_fp.blocking_callback => blocking_callback q p
  | callback_fp.user g => { q with calls := q.calls ++ [(callback_fp.user g, p)] }

/-- Modelled from the spec: the interrupt handler is not part of this file.
Sections 4.1 and 6: the engine pulls work with `currCmd`/`doneCmd`, and once
the outcome is known it populates `status` of `currCallback()`, fires the
callback and calls `doneCallback`.  This engine completes one transaction
with status `status` each time it runs, and idles on an empty queue. -/
def engine_complete (status : Nat) (q : twiQueue) : twiQueue :=
  let q1 := if hasCmd q then doneCmd q else q
  if hasCallback q1 then
    let p := q1.iCallback
    let q2 := q1.store p (fun s => { s with state := status })
    let q3 := invoke q2 (currCallback q2).donefunc p
    doneCallback q3
  else q1

/-! ## Runs of the queue -/

/-- One step taken by the foreground or by the engine: a bare `allocFree`, a
non-blocking `enqueue_rw`, `doneCmd`, `doneCallback`, or the engine writing
the status field of a slot. -/
inductive Op where
  | alloc : Op
  | enqueue (addr_rw data len : Nat) (donefunc : callback_fp) : Op
  | doneCmd : Op
  | doneCallback : Op
  | setState (p : Int) (v : Nat) : Op

/-- The queue after one step. -/
def Op.step (q : twiQueue) : Op → twiQueue
  | Op.alloc => (allocFree q).2
  | Op.enqueue a d l f => (enqueue_rw q a d l f).2
  | Op.doneCmd => TWIMaster.doneCmd q
  | Op.doneCallback => TWIMaster.doneCallback q
  | Op.setState p v => q.store p (fun s => { s with state := v })

/-- The documented precondition of a step: `doneCmd` "only valid if
hasCmd()" (lines 98, 105), `doneCallback` only if `hasCallback()` (line 120). -/
def Op.pre (q : twiQueue) : Op → Bool
  | Op.doneCmd => hasCmd q
  | Op.doneCallback => hasCallback q
  | _ => true

/-- The queue after a sequence of steps. -/
def run (q : twiQueue) : List Op → twiQueue
  | [] => q
  | o :: os => run (o.step q) os

/-- Every step of the sequence is taken in a state that meets its
precondition. -/
def Respects (q : twiQueue) : List Op → Prop
  | [] => True
  | o :: os => o.pre q = true ∧ Respects (o.step q) os

/-- A state reached from the constructed queue by steps that respect the
preconditions. -/
def Reachable (q : twiQueue) : Prop :=
  ∃ mem sreg ops, Respects (twiQueue.construct mem sreg) ops ∧
    run (twiQueue.construct mem sreg) ops = q

/-- A state reached from the constructed queue by any steps at all. -/
def ReachableAny (q : twiQueue) : Prop :=
  ∃ mem sreg ops, run (twiQueue.construct mem sreg) ops = q

/-- What an enqueue leaves in a slot, apart from the status field: the slot
index and the four fields `enqueue_rw_crit` writes. -/
structure Rec where
  slot : Int
  buff : Nat
  addr : Nat
  len : Nat
  donefunc : callback_fp
deriving DecidableEq

/-- The record currently held by slot `p`. -/
def recOf (q : twiQueue) (p : Int) : Rec :=
  { slot := p, buff := (q.queue p).buff, addr := (q.queue p).addr,
    len := (q.queue p).len, donefunc := (q.queue p).donefunc }

/-- A queue together with the history of a run: the records of the successful
enqueues, the records `currCmd()` showed at each `doneCmd`, and the records
`currCallback()` showed at each `doneCallback`, each in order. -/
structure Sim where
  q : twiQueue
  enq : List Rec
  disp : List Rec
  ret : List Rec

/-- One step, with its entry in the history. -/
def Sim.step (t : Sim) : Op → Sim
  | Op.alloc =>
    match allocFree t.q with
    | (none, q1) => { t with q := q1 }
    | (some p, q1) => { t with q := q1, enq := t.enq ++ [recOf q1 p] }
  | Op.enqueue a d l f =>
    match enqueue_rw t.q a d l f with
    | (false, q1) => { t with q := q1 }
    | (true, q1) =>
      { t with q := q1,
               enq := t.enq ++ [{ slot := t.q.iFree, buff := d, addr := a, len := l,
                                  donefunc := f }] }
  | Op.doneCmd => { t with q := TWIMaster.doneCmd t.q, disp := t.disp ++ [recOf t.q t.q.iCmd] }
  | Op.doneCallback =>
    { t with q := TWIMaster.doneCallback t.q, ret := t.ret ++ [recOf t.q t.q.iCallback] }
  | Op.setState p v => { t with q := (Op.setState p v).step t.q }

/-- A run with its history. -/
def Sim.run (t : Sim) : List Op → Sim
  | [] => t
  | o :: os => Sim.run (t.step o) os

/-- The start of a history: the constructed queue, nothing enqueued. -/
def Sim.start (mem : Int → state_s) (sreg : Nat) : Sim :=
  { q := twiQueue.construct mem sreg, enq := [], disp := [], ret := [] }

/-- Both cursors and the free cursor are valid indices. -/
def validCursors (q : twiQueue) : Prop :=
  validIndex q.iCmd = true ∧ validIndex q.iCallback = true ∧ validIndex q.iFree = true

instance (q : twiQueue) : Decidable (validCursors q) := by
  unfold validCursors
  infer_instance

/-- The cursor-order predicate: going forward from `iCallback` one meets
`iCmd` and then `iFree` within one turn of the ring. -/
def cursorOrder (q : twiQueue) : Prop :=
  (q.iCmd - q.iCallback) % 16 + (q.iFree - q.iCmd) % 16 = (q.iFree - q.iCallback) % 16 ∧
    (q.iFree - q.iCallback) % 16 ≤ 15

instance (q : twiQueue) : Decidable (cursorOrder q) := by
  unfold cursorOrder
  infer_instance

/-! ## The invariant of a run with history -/

/-- The invariant tying a queue to its history: the three cursors are the
three history lengths modulo 16, at most 15 records are outstanding, every
outstanding record sits unchanged in its slot, and the dispatched and the
retired records are initial segments of the enqueued ones. -/
structure Good (t : Sim) : Prop where
  cb_le : t.ret.length ≤ t.disp.length
  cmd_le : t.disp.length ≤ t.enq.length
  cap : t.enq.length ≤ t.ret.length + 15
  hFree : t.q.iFree = ((t.enq.length % 16 : Nat) : Int)
  hCmd : t.q.iCmd = ((t.disp.length % 16 : Nat) : Int)
  hCb : t.q.iCallback = ((t.ret.length % 16 : Nat) : Int)
  slots : ∀ j, t.ret.length ≤ j → j < t.enq.length →
    t.enq[j]? = some (recOf t.q ((j % 16 : Nat) : Int))
  disp_eq : t.disp = t.enq.take t.disp.length
  ret_eq : t.ret = t.enq.take t.ret.length

/-- The results of a series of non-blocking enqueues, made one after the
other with nothing else happening in between; each entry of the list is
`(addr_rw, data, len, donefunc)`. -/
def enqueue_all (q : twiQueue) : List (Nat × Nat × Nat × callback_fp) → List Bool
  | [] => []
  | (a, d, l, f) :: rest =>
    (enqueue_rw q a d l f).1 :: enqueue_all (enqueue_rw q a d l f).2 rest

/-- A memory whose every slot is zero. -/
def mem0 : Int → state_s :=
  fun _ => { buff := 0, addr := 0, state := 0, len := 0, donefunc := callback_fp.NULL }

/-- A short run used to instantiate the theorems: two enqueues, the first
dispatched and retired, then a third enqueue. -/
def ops_sample : List Op :=
  [Op.enqueue 0xA0 100 3 (callback_fp.user 1), Op.enqueue 0xA1 200 2 callback_fp.NULL,
   Op.doneCmd, Op.setState 0 1, Op.doneCallback, Op.enqueue 0x42 300 1 (callback_fp.user 2)]

/-- A state with one transaction dispatched and waiting for its completion
to be reported; its callback is the user function 1. -/
def q_pending : twiQueue :=
  run (twiQueue.construct mem0 0x80)
    [Op.enqueue 0xA0 100 3 (callback_fp.user 1), Op.doneCmd, Op.setState 0 1]

/-- The state after `doneCmd` has been called on the constructed queue,
although `hasCmd()` is false there. -/
def q_overrun : twiQueue := doneCmd (twiQueue.construct mem0 0x80)

/-- A full queue: fifteen enqueues on the constructed queue. -/
def q_full : twiQueue :=
  run (twiQueue.construct mem0 0x80) (List.replicate 15 (Op.enqueue 0xA0 100 3 callback_fp.NULL))

/-! ## Barrier enqueue (lines 209-250) -/

/-- `enqueue_nop` (lines 210-232).  After the allocation and the two stores
it executes `sei(); while (!_blocking_callback_called) {}`; that loop is
`wait_called`, so `none` means the loop had not finished after `fuel` turns. -/
def enqueue_nop (isr : twiQueue → twiQueue) (fuel : Nat) (q : twiQueue)
    (donefunc : callback_fp) : Option (Bool × twiQueue) :=
  let sreg := q.SREG
  let q1 := cli q
  match allocFree q1 with
  | (none, q2) => some (false, { q2 with SREG := sreg })
  | (some p, q2) =>
    let q3 := q2.store p (fun s => { s with len := 0 })
    let q4 := q3.store p (fun s => { s with donefunc := donefunc })
    match wait_called isr fuel (sei q4) with
    | none => none
    | some q5 => some (true, { q5 with SREG := sreg })

/-- The loop `while (!enqueue_nop(blocking_callback)) {}` (lines 242-243).
Between two attempts the interrupt context runs if the interrupt-enable flag
is set.  `inner` is the fuel given to each call of `enqueue_nop`. -/
def nop_retry (isr : twiQueue → twiQueue) (inner : Nat) : Nat → twiQueue → Option twiQueue
  | 0, q =>
    match enqueue_nop isr inner q callback_fp.blocking_callback with
    | some (true, q1) => some q1
    | _ => none
  | fuel + 1, q =>
    match enqueue_nop isr inner q callback_fp.blocking_callback with
    | none => none
    | some (true, q1) => some q1
    | some (false, q1) =>
      nop_retry isr inner fuel (if q1.SREG.testBit SREG_I then isr q1 else q1)

/-- `enqueue_nop_b` (lines 236-250). -/
def enqueue_nop_b (isr : twiQueue → twiQueue) (fuel : Nat) (q : twiQueue) : Option twiQueue :=
  let q1 := { q with _blocking_callback_called := false }
  let q2 := { q1 with _blocking_donefunc := callback_fp.NULL }
  match nop_retry isr fuel fuel q2 with
  | none => none
  | some q3 =>
    let sreg := q3.SREG
    match wait_called isr fuel (sei q3) with
    | none => none
    | some q4 => some { q4 with SREG := sreg }

/-- The interrupt-enable state: the I flag of `SREG`. -/
def interrupts_enabled (q : twiQueue) : Bool := q.SREG.testBit SREG_I

/-- The state in which the retry loop of `enqueue_rwb` makes attempt number
`k` (counted from 0), provided the attempts before it failed: each failed
attempt is followed by `sei(); nop; cli();`. -/
def retry_state (isr : twiQueue → twiQueue) : Nat → twiQueue → twiQueue
  | 0, q => q
  | k + 1, q => retry_state isr k (cli (isr (sei q)))

/-- What the blocking enqueue waits for, in terms of the queue: its record
sits in slot `p`, just below `iFree`, not yet retired, with the bridging
callback installed; and if the fired flag is set, the status captured is `s`. -/
structure Waiting (s : Nat) (p : Int) (q : twiQueue) : Prop where
  valid : validCursors q
  p0 : 0 ≤ p
  p1 : p < 16
  free : q.iFree = (p + 1) % 16
  notRetired : q.iCallback ≠ q.iFree
  slot : (q.queue p).donefunc = callback_fp.blocking_callback
  flag : q._blocking_callback_called = true → q._blocking_state = s

/-- A bound on the engine turns still needed: the distance the dispatch
cursor and the completion cursor have to go to reach `iFree`. -/
def turns_left (q : twiQueue) : Nat :=
  ((q.iFree - q.iCmd) % 16 + (q.iFree - q.iCallback) % 16).toNat

/-! ## Bus bring-up (lines 20-26, 255-285) -/

def TWI_TWBR : Nat := 0x0C
def TIMEOUT_TWI_CLOCKS : Nat := 32

/-- Bit positions from `<avr/io.h>` (ATmega2560) used by
`i2c_master_initialize`. -/
def TWINT : Nat := 7
def TWEA : Nat := 6
def TWSTA : Nat := 5
def TWSTO : Nat := 4
def TWWC : Nat := 3
def TWEN : Nat := 2
def TWIE : Nat := 0
def TWPS1 : Nat := 1
def TWPS0 : Nat := 0
def PL3 : Nat := 3
def COM5A0 : Nat := 6
def WGM52 : Nat := 3
def CS50 : Nat := 0

/-- The I/O registers `i2c_master_initialize` writes.  All are 8 bits wide
except the 16-bit compare register `OCR5A`. -/
structure Regs where
  TWBR : Nat
  TWSR : Nat
  TWCR : Nat
  DDRL : Nat
  TCCR5A : Nat
  TCCR5B : Nat
  TIMSK5 : Nat
  TIFR5 : Nat
  OCR5A : Nat
deriving DecidableEq

/-- `i2c_master_initialize` (lines 255-285), with `USINGTIMER` defined
(line 16).  `~x` on an 8-bit register is `255 - x`. -/
def i2c_master_initialize (r : Regs) : Regs :=
  let r1 := { r with TWBR := TWI_TWBR % 256 }
  let r2 := { r1 with TWSR := r1.TWSR &&& (255 - ((1 <<< TWPS1) ||| (1 <<< TWPS0))) }
  let r3 := { r2 with TWCR :=
    ((1 <<< TWEN) ||| (0 <<< TWIE) ||| (0 <<< TWINT) ||| (0 <<< TWEA) ||| (0 <<< TWSTA) |||
      (0 <<< TWSTO) ||| (0 <<< TWWC)) % 256 }
  let r4 := { r3 with DDRL := (r3.DDRL ||| (1 <<< PL3)) % 256 }
  let r5 := { r4 with TCCR5A := (1 <<< COM5A0) % 256 }
  let r6 := { r5 with TCCR5B := ((1 <<< WGM52) ||| (1 <<< CS50)) % 256 }
  let r7 := { r6 with TIMSK5 := 0 }
  let r8 := { r7 with TIFR5 := 0xFF }
  { r8 with OCR5A := (((16 + 2 * TWI_TWBR) * TIMEOUT_TWI_CLOCKS) + 1) % 65536 }

/-- The bus-clock period in CPU cycles, from the datasheet formula quoted at
line 264: `SCL frequency = F_CPU / (16 + 2(TWBR)*4**(TWPS))`, with `TWPS` the
two prescaler bits of `TWSR`. -/
def scl_period (r : Regs) : Nat := 16 + 2 * r.TWBR * 4 ^ (r.TWSR % 4)

/-! ## Counting the steps of a run -/

/-- The number of `doneCmd` steps in a sequence. -/
def countCmd : List Op → Nat
  | [] => 0
  | Op.doneCmd :: os => countCmd os + 1
  | _ :: os => countCmd os

/-- The number of `doneCallback` steps in a sequence. -/
def countCallback : List Op → Nat
  | [] => 0
  | Op.doneCallback :: os => countCallback os + 1
  | _ :: os => countCallback os

/-- The barrier scenario: two writes, then the allocation of the barrier's
slot (the `allocFree` of `enqueue_nop`), then any further steps. -/
def barrier_scenario (rest : List Op) : List Op :=
  Op.enqueue 0xA0 100 3 (callback_fp.user 1) :: Op.enqueue 0xA0 200 2 (callback_fp.user 2) ::
    Op.alloc :: rest

/-- A continuation of the barrier scenario: the first write is dispatched and
retired, a third transaction is enqueued, then the second write and the
barrier are dispatched and retired in turn. -/
def barrier_rest : List Op :=
  [Op.doneCmd, Op.doneCallback, Op.enqueue 0xA0 300 1 callback_fp.NULL,
   Op.doneCmd, Op.doneCallback, Op.doneCmd, Op.doneCallback]

/-- A queue on which an earlier blocking call has left the fired flag set. -/
def q_fired : twiQueue :=
  { twiQueue.construct mem0 0x80 with _blocking_callback_called := true }

/-! ## Basic facts about indices and the cursor operations -/

theorem validIndex_iff (i : Int) : validIndex i = true ↔ 0 ≤ i ∧ i < 16 := by
  simp [validIndex, qSize, NQBits]

theorem nextIndex_of_valid (i : Int) (h0 : 0 ≤ i) (h1 : i < 16) :
    nextIndex i = (i + 1) % 16 := by
  unfold nextIndex qMask NQBits
  interval_cases i <;> decide

theorem nextIndex_range (i : Int) (h0 : 0 ≤ i) (h1 : i < 16) :
    0 ≤ nextIndex i ∧ nextIndex i < 16 := by
  rw [nextIndex_of_valid i h0 h1]
  omega

theorem nextIndex_cast (n : Nat) :
    nextIndex ((n % 16 : Nat) : Int) = (((n + 1) % 16 : Nat) : Int) := by
  rw [nextIndex_of_valid _ (by omega) (by omega)]
  omega

theorem nextIndex_ne_self (i : Int) (h0 : 0 ≤ i) (h1 : i < 16) : nextIndex i ≠ i := by
  rw [nextIndex_of_valid i h0 h1]
  omega

theorem allocFree_full (q : twiQueue) (h : nextIndex q.iFree = q.iCallback) :
    allocFree q = (none, q) := by
  simp [allocFree, h]

theorem allocFree_ok (q : twiQueue) (h : nextIndex q.iFree ≠ q.iCallback) :
    allocFree q = (some q.iFree, { q with iFree := nextIndex q.iFree }) := by
  simp [allocFree, h]

theorem enqueue_rw_full (q : twiQueue) (a d l : Nat) (f : callback_fp)
    (h : nextIndex q.iFree = q.iCallback) : enqueue_rw q a d l f = (false, q) := by
  have h1 : allocFree (cli q) = (none, cli q) := allocFree_full (cli q) h
  simp only [enqueue_rw, enqueue_rw_crit, h1]
  simp [cli]

theorem enqueue_rw_ok (q : twiQueue) (a d l : Nat) (f : callback_fp)
    (h : nextIndex q.iFree ≠ q.iCallback) :
    enqueue_rw q a d l f =
      (true, { q with
        queue := Function.update q.queue q.iFree
          { buff := d, addr := a, state := (q.queue q.iFree).state, len := l, donefunc := f },
        iFree := nextIndex q.iFree,
        kicks := q.kicks + 1 }) := by
  have h1 : allocFree (cli q) = (some q.iFree, { cli q with iFree := nextIndex q.iFree }) :=
    allocFree_ok (cli q) h
  simp only [enqueue_rw, enqueue_rw_crit, h1]
  simp [cli, twiQueue.store, kick_isr]

/-! ## Facts about the invariant of a run -/

theorem good_start (mem : Int → state_s) (sreg : Nat) : Good (Sim.start mem sreg) := by
  refine ⟨?_, ?_, ?_, ?_, ?_, ?_, ?_, ?_, ?_⟩ <;> simp [Sim.start, twiQueue.construct]

theorem good_full_iff (t : Sim) (hg : Good t) :
    nextIndex t.q.iFree = t.q.iCallback ↔ t.enq.length = t.ret.length + 15 := by
  rw [hg.hFree, hg.hCb, nextIndex_cast]
  have h1 := hg.cb_le
  have h2 := hg.cmd_le
  have h3 := hg.cap
  omega

theorem good_hasCmd_iff (t : Sim) (hg : Good t) :
    hasCmd t.q = true ↔ t.disp.length < t.enq.length := by
  simp only [hasCmd, decide_eq_true_eq]
  rw [hg.hFree, hg.hCmd]
  have h1 := hg.cb_le
  have h2 := hg.cmd_le
  have h3 := hg.cap
  omega

theorem good_hasCallback_iff (t : Sim) (hg : Good t) :
    hasCallback t.q = true ↔ t.ret.length < t.disp.length := by
  simp only [hasCallback, decide_eq_true_eq]
  rw [hg.hCb, hg.hCmd]
  have h1 := hg.cb_le
  have h2 := hg.cmd_le
  have h3 := hg.cap
  omega

theorem take_append_getElem (l : List Rec) (n : Nat) (x : Rec) (h : l[n]? = some x) :
    l.take n ++ [x] = l.take (n + 1) := by
  rw [List.take_succ, h]
  rfl

theorem good_doneCmd (t : Sim) (hg : Good t) (hp : hasCmd t.q = true) :
    Good (t.step Op.doneCmd) := by
  have hlt := (good_hasCmd_iff t hg).1 hp
  have h1 := hg.cb_le
  have h3 := hg.cap
  have hs := hg.slots t.disp.length h1 hlt
  refine ⟨?_, ?_, ?_, ?_, ?_, ?_, ?_, ?_, ?_⟩
  · simp [Sim.step]; omega
  · simp [Sim.step]; omega
  · simpa [Sim.step] using h3
  · simpa [Sim.step, doneCmd] using hg.hFree
  · simp only [Sim.step, doneCmd, List.length_append, List.length_singleton]
    rw [hg.hCmd, nextIndex_cast]
  · simpa [Sim.step, doneCmd] using hg.hCb
  · intro j hj1 hj2
    simpa [Sim.step, doneCmd, recOf] using hg.slots j hj1 hj2
  · simp only [Sim.step, List.length_append, List.length_singleton]
    rw [← take_append_getElem t.enq t.disp.length _ hs, ← hg.disp_eq, hg.hCmd]
  · simpa [Sim.step] using hg.ret_eq

theorem good_doneCallback (t : Sim) (hg : Good t) (hp : hasCallback t.q = true) :
    Good (t.step Op.doneCallback) := by
  have hlt := (good_hasCallback_iff t hg).1 hp
  have h2 := hg.cmd_le
  have h3 := hg.cap
  have hs := hg.slots t.ret.length (le_refl _) (by omega)
  refine ⟨?_, ?_, ?_, ?_, ?_, ?_, ?_, ?_, ?_⟩
  · simp [Sim.step]; omega
  · simpa [Sim.step] using h2
  · simp [Sim.step]; omega
  · simpa [Sim.step, doneCallback] using hg.hFree
  · simpa [Sim.step, doneCallback] using hg.hCmd
  · simp only [Sim.step, doneCallback, List.length_append, List.length_singleton]
    rw [hg.hCb, nextIndex_cast]
  · intro j hj1 hj2
    have hj1' : t.ret.length ≤ j := by
      simp [Sim.step] at hj1; omega
    simpa [Sim.step, doneCallback, recOf] using hg.slots j hj1' (by simpa [Sim.step] using hj2)
  · simpa [Sim.step] using hg.disp_eq
  · simp only [Sim.step, List.length_append, List.length_singleton]
    rw [← take_append_getElem t.enq t.ret.length _ hs, ← hg.ret_eq, hg.hCb]

theorem good_setState (t : Sim) (hg : Good t) (p : Int) (v : Nat) :
    Good (t.step (Op.setState p v)) := by
  have hrec : ∀ i, recOf ((Op.setState p v).step t.q) i = recOf t.q i := by
    intro i
    by_cases hi : i = p
    · subst hi; simp [Op.step, twiQueue.store, recOf]
    · simp [Op.step, twiQueue.store, recOf, Function.update_noteq hi]
  refine ⟨hg.cb_le, hg.cmd_le, hg.cap, ?_, ?_, ?_, ?_, hg.disp_eq, hg.ret_eq⟩
  · simpa [Sim.step, Op.step, twiQueue.store] using hg.hFree
  · simpa [Sim.step, Op.step, twiQueue.store] using hg.hCmd
  · simpa [Sim.step, Op.step, twiQueue.store] using hg.hCb
  · intro j hj1 hj2
    have := hg.slots j hj1 hj2
    simp only [Sim.step]
    rw [hrec]
    exact this

theorem Sim.step_alloc_full (t : Sim) (h : nextIndex t.q.iFree = t.q.iCallback) :
    t.step Op.alloc = t := by
  simp [Sim.step, allocFree_full t.q h]

theorem Sim.step_alloc_ok (t : Sim) (h : nextIndex t.q.iFree ≠ t.q.iCallback) :
    t.step Op.alloc =
      { t with q := { t.q with iFree := nextIndex t.q.iFree },
               enq := t.enq ++ [recOf t.q t.q.iFree] } := by
  simp [Sim.step, allocFree_ok t.q h, recOf]

theorem Sim.step_enqueue_full (t : Sim) (a d l : Nat) (f : callback_fp)
    (h : nextIndex t.q.iFree = t.q.iCallback) : t.step (Op.enqueue a d l f) = t := by
  simp [Sim.step, enqueue_rw_full t.q a d l f h]

theorem Sim.step_enqueue_ok (t : Sim) (a d l : Nat) (f : callback_fp)
    (h : nextIndex t.q.iFree ≠ t.q.iCallback) :
    t.step (Op.enqueue a d l f) =
      { t with
        q := { t.q with
          queue := Function.update t.q.queue t.q.iFree
            { buff := d, addr := a, state := (t.q.queue t.q.iFree).state, len := l,
              donefunc := f },
          iFree := nextIndex t.q.iFree,
          kicks := t.q.kicks + 1 },
        enq := t.enq ++ [{ slot := t.q.iFree, buff := d, addr := a, len := l,
                           donefunc := f }] } := by
  simp [Sim.step, enqueue_rw_ok t.q a d l f h]

/-- Appending a record `x` that the new queue `q'` holds in slot
`enq.length % 16`, while every other outstanding slot is as before. -/
theorem good_push (t : Sim) (hg : Good t) (h : nextIndex t.q.iFree ≠ t.q.iCallback)
    (q' : twiQueue) (x : Rec)
    (hF : q'.iFree = nextIndex t.q.iFree) (hC : q'.iCmd = t.q.iCmd)
    (hB : q'.iCallback = t.q.iCallback)
    (hx : recOf q' t.q.iFree = x)
    (hrest : ∀ i, i ≠ t.q.iFree → recOf q' i = recOf t.q i) :
    Good { t with q := q', enq := t.enq ++ [x] } := by
  have hnf : t.enq.length ≠ t.ret.length + 15 := fun e => h ((good_full_iff t hg).2 e)
  have h1 := hg.cb_le
  have h2 := hg.cmd_le
  have h3 := hg.cap
  refine ⟨h1, ?_, ?_, ?_, ?_, ?_, ?_, ?_, ?_⟩
  · simp; omega
  · simp; omega
  · simp only [List.length_append, List.length_singleton]
    rw [hF, hg.hFree, nextIndex_cast]
  · simpa [hC] using hg.hCmd
  · simpa [hB] using hg.hCb
  · intro j hj1 hj2
    simp only [List.length_append, List.length_singleton] at hj2
    simp only at hj1
    by_cases hj : j < t.enq.length
    · have hne : ((j % 16 : Nat) : Int) ≠ t.q.iFree := by
        rw [hg.hFree]; omega
      simp only
      rw [List.getElem?_append_left hj, hrest _ hne]
      exact hg.slots j hj1 hj
    · have hje : j = t.enq.length := by omega
      subst hje
      simp only
      rw [← hg.hFree, hx]
      simp
  · simp only
    rw [List.take_append_of_le_length h2]
    exact hg.disp_eq
  · simp only
    rw [List.take_append_of_le_length (by omega)]
    exact hg.ret_eq

theorem good_alloc (t : Sim) (hg : Good t) : Good (t.step Op.alloc) := by
  by_cases h : nextIndex t.q.iFree = t.q.iCallback
  · rw [Sim.step_alloc_full t h]; exact hg
  · rw [Sim.step_alloc_ok t h]
    exact good_push t hg h _ _ rfl rfl rfl rfl (fun _ _ => rfl)

theorem good_enqueue (t : Sim) (hg : Good t) (a d l : Nat) (f : callback_fp) :
    Good (t.step (Op.enqueue a d l f)) := by
  by_cases h : nextIndex t.q.iFree = t.q.iCallback
  · rw [Sim.step_enqueue_full t a d l f h]; exact hg
  · rw [Sim.step_enqueue_ok t a d l f h]
    refine good_push t hg h _ _ rfl rfl rfl ?_ ?_
    · simp [recOf]
    · intro i hi
      simp [recOf, Function.update_noteq hi]

theorem good_step (t : Sim) (hg : Good t) (o : Op) (hp : o.pre t.q = true) :
    Good (t.step o) := by
  cases o with
  | alloc => exact good_alloc t hg
  | enqueue a d l f => exact good_enqueue t hg a d l f
  | doneCmd => exact good_doneCmd t hg hp
  | doneCallback => exact good_doneCallback t hg hp
  | setState p v => exact good_setState t hg p v

theorem Sim.step_q (t : Sim) (o : Op) : (t.step o).q = o.step t.q := by
  cases o with
  | alloc =>
    by_cases h : nextIndex t.q.iFree = t.q.iCallback
    · simp [Sim.step, Op.step, allocFree_full t.q h]
    · simp [Sim.step, Op.step, allocFree_ok t.q h]
  | enqueue a d l f =>
    by_cases h : nextIndex t.q.iFree = t.q.iCallback
    · simp [Sim.step, Op.step, enqueue_rw_full t.q a d l f h]
    · simp [Sim.step, Op.step, enqueue_rw_ok t.q a d l f h]
  | doneCmd => rfl
  | doneCallback => rfl
  | setState p v => rfl

theorem Sim.run_q (ops : List Op) : ∀ t : Sim, (t.run ops).q = TWIMaster.run t.q ops := by
  induction ops with
  | nil => intro t; rfl
  | cons o os ih =>
    intro t
    simp only [Sim.run, TWIMaster.run]
    rw [ih, Sim.step_q]

theorem good_run (ops : List Op) :
    ∀ t : Sim, Good t → Respects t.q ops → Good (t.run ops) := by
  induction ops with
  | nil => intro t hg _; exact hg
  | cons o os ih =>
    intro t hg hr
    simp only [Sim.run]
    apply ih _ (good_step t hg o hr.1)
    rw [Sim.step_q]
    exact hr.2

theorem good_valid (t : Sim) (hg : Good t) : validCursors t.q := by
  unfold validCursors
  rw [validIndex_iff, validIndex_iff, validIndex_iff, hg.hFree, hg.hCmd, hg.hCb]
  omega

theorem good_of_respects (mem : Int → state_s) (sreg : Nat) (ops : List Op)
    (h : Respects (twiQueue.construct mem sreg) ops) : Good ((Sim.start mem sreg).run ops) :=
  good_run ops (Sim.start mem sreg) (good_start mem sreg) h

theorem respects_sample : Respects (twiQueue.construct mem0 0x80) ops_sample := by
  simp only [ops_sample, Respects, Op.pre, Op.step, and_true, true_and]
  constructor <;> decide

theorem alloc_some_iff (q : twiQueue) (hv : validCursors q) :
    (allocFree q).1.isSome = true ↔ (q.iFree - q.iCallback) % 16 < 15 := by
  obtain ⟨-, hb, hf⟩ := hv
  rw [validIndex_iff] at hb hf
  have hn := nextIndex_of_valid q.iFree hf.1 hf.2
  by_cases h : nextIndex q.iFree = q.iCallback
  · rw [allocFree_full q h]
    simp only [Option.isSome_none, Bool.false_eq_true, false_iff]
    omega
  · rw [allocFree_ok q h]
    simp only [Option.isSome_some, true_iff]
    omega

theorem enqueue_rw_true_iff (q : twiQueue) (hv : validCursors q) (a d l : Nat)
    (f : callback_fp) :
    (enqueue_rw q a d l f).1 = true ↔ (q.iFree - q.iCallback) % 16 < 15 := by
  obtain ⟨-, hb, hf⟩ := hv
  rw [validIndex_iff] at hb hf
  have hn := nextIndex_of_valid q.iFree hf.1 hf.2
  by_cases h : nextIndex q.iFree = q.iCallback
  · rw [enqueue_rw_full q a d l f h]
    simp only [Bool.false_eq_true, false_iff]
    omega
  · rw [enqueue_rw_ok q a d l f h]
    simp only [true_iff]
    omega

theorem enqueue_all_from (args : List (Nat × Nat × Nat × callback_fp)) :
    ∀ (q : twiQueue) (k : Nat), k ≤ 15 → q.iFree = (k : Int) → q.iCallback = 0 →
      enqueue_all q args = (List.range args.length).map (fun i => decide (k + i < 15)) := by
  induction args with
  | nil => intro q k _ _ _; rfl
  | cons x rest ih =>
    intro q k hk hF hB
    obtain ⟨a, d, l, f⟩ := x
    have hn : nextIndex q.iFree = ((k : Int) + 1) % 16 := by
      rw [hF]; exact nextIndex_of_valid _ (by omega) (by omega)
    simp only [enqueue_all, List.length_cons, List.range_succ_eq_map, List.map_cons,
      List.map_map]
    by_cases h : nextIndex q.iFree = q.iCallback
    · have hk15 : k = 15 := by omega
      rw [enqueue_rw_full q a d l f h, ih q k hk hF hB]
      subst hk15
      simp
    · have hk15 : k < 15 := by omega
      rw [enqueue_rw_ok q a d l f h]
      rw [ih _ (k + 1) (by omega) (by simp only; rw [hn]; omega) (by simpa using hB)]
      simp only [add_zero, hk15, decide_True, List.cons.injEq, true_and]
      apply List.map_congr_left
      intro i _
      simp only [Function.comp, Nat.succ_eq_add_one]
      congr 1
      apply propext
      omega

/-- C1. Capacity of the queue with N = 16.  In every state reached from the
constructed queue by steps that respect the preconditions of `doneCmd` and
`doneCallback`, the number of outstanding transactions (successful enqueues
minus retirements) is `(iFree - iCallback) mod 16`, and `allocFree` as well as
the non-blocking `enqueue_rw` succeed exactly when that number is below 15.
From the constructed queue, with nothing retired, a series of enqueues
succeeds at its first 15 attempts and fails from the 16th on. -/
theorem C1_capacity (mem : Int → state_s) (sreg : Nat) (ops : List Op)
    (h : Respects (twiQueue.construct mem sreg) ops) :
    ((Sim.start mem sreg).run ops).q = run (twiQueue.construct mem sreg) ops ∧
    ((run (twiQueue.construct mem sreg) ops).iFree -
        (run (twiQueue.construct mem sreg) ops).iCallback) % 16 =
      ((((Sim.start mem sreg).run ops).enq.length -
        ((Sim.start mem sreg).run ops).ret.length : Nat) : Int) ∧
    ((allocFree (run (twiQueue.construct mem sreg) ops)).1.isSome = true ↔
      ((run (twiQueue.construct mem sreg) ops).iFree -
        (run (twiQueue.construct mem sreg) ops).iCallback) % 16 < 15) ∧
    (∀ a d l f, (enqueue_rw (run (twiQueue.construct mem sreg) ops) a d l f).1 = true ↔
      ((run (twiQueue.construct mem sreg) ops).iFree -
        (run (twiQueue.construct mem sreg) ops).iCallback) % 16 < 15) ∧
    (∀ args : List (Nat × Nat × Nat × callback_fp),
      enqueue_all (twiQueue.construct mem sreg) args =
        (List.range args.length).map (fun i => decide (i < 15))) := by
  have hg := good_of_respects mem sreg ops h
  have hq : ((Sim.start mem sreg).run ops).q = run (twiQueue.construct mem sreg) ops :=
    Sim.run_q ops (Sim.start mem sreg)
  have hv := good_valid _ hg
  rw [hq] at hv
  refine ⟨hq, ?_, alloc_some_iff _ hv, fun a d l f => enqueue_rw_true_iff _ hv a d l f, ?_⟩
  · rw [← hq, hg.hFree, hg.hCb]
    have h1 := hg.cb_le
    have h2 := hg.cmd_le
    have h3 := hg.cap
    omega
  · intro args
    have := enqueue_all_from args (twiQueue.construct mem sreg) 0 (by omega) rfl rfl
    simpa using this

/-- C1, instantiated at the sample run. -/
theorem C1_capacity_witness :
    Respects (twiQueue.construct mem0 0x80) ops_sample ∧
    ((allocFree (run (twiQueue.construct mem0 0x80) ops_sample)).1.isSome = true ↔
      ((run (twiQueue.construct mem0 0x80) ops_sample).iFree -
        (run (twiQueue.construct mem0 0x80) ops_sample).iCallback) % 16 < 15) :=
  ⟨respects_sample, (C1_capacity mem0 0x80 ops_sample respects_sample).2.2.1⟩

/-- C2. `allocFree` on a queue whose cursors are valid indices: it returns
`NOSTATE` exactly when `nextIndex(iFree) == iCallback`, and then the whole
queue (cursors and slots) is as before; otherwise it returns the slot at the
old `iFree`, sets `iFree` to `(iFree + 1) mod 16` and changes nothing else. -/
theorem C2_allocFree (q : twiQueue) (hv : validCursors q) :
    ((allocFree q).1 = none ↔ nextIndex q.iFree = q.iCallback) ∧
    (nextIndex q.iFree = q.iCallback → (allocFree q).2 = q) ∧
    (nextIndex q.iFree ≠ q.iCallback →
      (allocFree q).1 = some q.iFree ∧
      (allocFree q).2 = { q with iFree := (q.iFree + 1) % 16 } ∧
      (allocFree q).2.iCmd = q.iCmd ∧ (allocFree q).2.iCallback = q.iCallback ∧
      (allocFree q).2.queue = q.queue) := by
  obtain ⟨-, -, hf⟩ := hv
  rw [validIndex_iff] at hf
  have hn := nextIndex_of_valid q.iFree hf.1 hf.2
  refine ⟨?_, ?_, ?_⟩
  · by_cases h : nextIndex q.iFree = q.iCallback
    · simp [allocFree_full q h, h]
    · simp [allocFree_ok q h, h]
  · intro h
    rw [allocFree_full q h]
  · intro h
    rw [allocFree_ok q h, hn]
    exact ⟨rfl, rfl, rfl, rfl, rfl⟩

/-- C2, instantiated at the state after the sample run. -/
theorem C2_allocFree_witness :
    validCursors (run (twiQueue.construct mem0 0x80) ops_sample) ∧
    ((allocFree (run (twiQueue.construct mem0 0x80) ops_sample)).1 = none ↔
      nextIndex (run (twiQueue.construct mem0 0x80) ops_sample).iFree =
        (run (twiQueue.construct mem0 0x80) ops_sample).iCallback) :=
  ⟨by decide, (C2_allocFree (run (twiQueue.construct mem0 0x80) ops_sample) (by decide)).1⟩

theorem cursorOrder_of_good (t : Sim) (hg : Good t) :
    cursorOrder t.q ∧
    (t.q.iFree - t.q.iCmd) % 16 = ((t.enq.length - t.disp.length : Nat) : Int) ∧
    (t.q.iCmd - t.q.iCallback) % 16 = ((t.disp.length - t.ret.length : Nat) : Int) := by
  unfold cursorOrder
  rw [hg.hFree, hg.hCmd, hg.hCb]
  have h1 := hg.cb_le
  have h2 := hg.cmd_le
  have h3 := hg.cap
  omega

/-- C3. The cursor-order invariant
`((iCmd - iCallback) mod 16) + ((iFree - iCmd) mod 16) = (iFree - iCallback) mod 16 <= 15`
holds for the constructed queue and, on a queue with valid cursors, is kept
by `allocFree` (hence by `enqueue_rw`), by `doneCmd` when `hasCmd()` and by
`doneCallback` when `hasCallback()`, which also keep the cursors valid.
`hasCmd()` is true exactly when `(iFree - iCmd) mod 16 >= 1` and
`hasCallback()` exactly when `(iCmd - iCallback) mod 16 >= 1`; along every run
from the constructed queue that respects the preconditions these two numbers
are the count of enqueued records not yet dispatched and the count of
dispatched records not yet retired. -/
theorem C3_cursor_order (q : twiQueue) (hv : validCursors q) (hinv : cursorOrder q) :
    (∀ mem sreg, cursorOrder (twiQueue.construct mem sreg)) ∧
    cursorOrder (allocFree q).2 ∧
    (∀ a d l f, cursorOrder (enqueue_rw q a d l f).2) ∧
    (hasCmd q = true → cursorOrder (doneCmd q)) ∧
    (hasCallback q = true → cursorOrder (doneCallback q)) ∧
    validCursors (allocFree q).2 ∧ validCursors (doneCmd q) ∧ validCursors (doneCallback q) ∧
    (hasCmd q = true ↔ 1 ≤ (q.iFree - q.iCmd) % 16) ∧
    (hasCallback q = true ↔ 1 ≤ (q.iCmd - q.iCallback) % 16) ∧
    (∀ mem sreg ops, Respects (twiQueue.construct mem sreg) ops →
      cursorOrder (run (twiQueue.construct mem sreg) ops) ∧
      validCursors (run (twiQueue.construct mem sreg) ops) ∧
      ((run (twiQueue.construct mem sreg) ops).iFree -
          (run (twiQueue.construct mem sreg) ops).iCmd) % 16 =
        ((((Sim.start mem sreg).run ops).enq.length -
          ((Sim.start mem sreg).run ops).disp.length : Nat) : Int) ∧
      ((run (twiQueue.construct mem sreg) ops).iCmd -
          (run (twiQueue.construct mem sreg) ops).iCallback) % 16 =
        ((((Sim.start mem sreg).run ops).disp.length -
          ((Sim.start mem sreg).run ops).ret.length : Nat) : Int)) := by
  obtain ⟨hc, hb, hf⟩ := hv
  have hc' := hc
  have hb' := hb
  have hf' := hf
  rw [validIndex_iff] at hc' hb' hf'
  have hnf := nextIndex_of_valid q.iFree hf'.1 hf'.2
  have hnc := nextIndex_of_valid q.iCmd hc'.1 hc'.2
  have hnb := nextIndex_of_valid q.iCallback hb'.1 hb'.2
  obtain ⟨hi1, hi2⟩ := hinv
  have halloc : cursorOrder (allocFree q).2 ∧ validCursors (allocFree q).2 := by
    by_cases h : nextIndex q.iFree = q.iCallback
    · rw [allocFree_full q h]
      exact ⟨⟨hi1, hi2⟩, hc, hb, hf⟩
    · rw [allocFree_ok q h]
      refine ⟨?_, hc, hb, ?_⟩
      · simp only [cursorOrder]
        omega
      · simp only [validIndex_iff]
        omega
  refine ⟨?_, halloc.1, ?_, ?_, ?_, halloc.2, ?_, ?_, ?_, ?_, ?_⟩
  · intro mem sreg
    simp [cursorOrder, twiQueue.construct]
  · intro a d l f
    by_cases h : nextIndex q.iFree = q.iCallback
    · rw [enqueue_rw_full q a d l f h]
      exact ⟨hi1, hi2⟩
    · rw [enqueue_rw_ok q a d l f h]
      simp only [cursorOrder]
      omega
  · intro h
    simp only [hasCmd, decide_eq_true_eq] at h
    simp only [cursorOrder, doneCmd]
    omega
  · intro h
    simp only [hasCallback, decide_eq_true_eq] at h
    simp only [cursorOrder, doneCallback]
    omega
  · refine ⟨?_, hb, hf⟩
    simp only [doneCmd, validIndex_iff]
    omega
  · refine ⟨hc, ?_, hf⟩
    simp only [doneCallback, validIndex_iff]
    omega
  · simp only [hasCmd, decide_eq_true_eq]
    omega
  · simp only [hasCallback, decide_eq_true_eq]
    omega
  · intro mem sreg ops hr
    have hg := good_of_respects mem sreg ops hr
    have hq : ((Sim.start mem sreg).run ops).q = run (twiQueue.construct mem sreg) ops :=
      Sim.run_q ops (Sim.start mem sreg)
    have hv := good_valid _ hg
    have ho := cursorOrder_of_good _ hg
    rw [hq] at hv ho
    exact ⟨ho.1, hv, ho.2.1, ho.2.2⟩

/-- C3, instantiated at the state after the sample run, where two records
wait for dispatch and none for retirement. -/
theorem C3_cursor_order_witness :
    validCursors (run (twiQueue.construct mem0 0x80) ops_sample) ∧
    cursorOrder (run (twiQueue.construct mem0 0x80) ops_sample) ∧
    cursorOrder (doneCmd (run (twiQueue.construct mem0 0x80) ops_sample)) :=
  ⟨by decide, by decide,
    (C3_cursor_order (run (twiQueue.construct mem0 0x80) ops_sample) (by decide)
      (by decide)).2.2.2.1 (by decide)⟩

theorem take_getElem_of_some (l : List Rec) (n k : Nat) (r : Rec)
    (h : (l.take n)[k]? = some r) : l[k]? = some r := by
  rw [List.getElem?_take] at h
  split at h
  · exact h
  · exact absurd h (by simp)

/-- C4. FIFO order.  Along every run from the constructed queue that respects
the preconditions of `doneCmd` and `doneCallback` - enqueues, bare
allocations, dispatches, retirements and status writes by the engine in any
interleaving - the records seen by `currCmd()` at the successive `doneCmd`
calls, and those seen by `currCallback()` at the successive `doneCallback`
calls, are initial segments of the sequence of successfully enqueued records:
the k-th dispatch and the k-th retirement concern the slot of the k-th
successful enqueue and show the buffer, address, length and callback it
stored. -/
theorem C4_fifo (mem : Int → state_s) (sreg : Nat) (ops : List Op)
    (h : Respects (twiQueue.construct mem sreg) ops) :
    ((Sim.start mem sreg).run ops).q = run (twiQueue.construct mem sreg) ops ∧
    ((Sim.start mem sreg).run ops).ret.length ≤ ((Sim.start mem sreg).run ops).disp.length ∧
    ((Sim.start mem sreg).run ops).disp.length ≤ ((Sim.start mem sreg).run ops).enq.length ∧
    ((Sim.start mem sreg).run ops).disp =
      ((Sim.start mem sreg).run ops).enq.take ((Sim.start mem sreg).run ops).disp.length ∧
    ((Sim.start mem sreg).run ops).ret =
      ((Sim.start mem sreg).run ops).enq.take ((Sim.start mem sreg).run ops).ret.length ∧
    (∀ (k : Nat) (r : Rec), ((Sim.start mem sreg).run ops).disp[k]? = some r →
      ((Sim.start mem sreg).run ops).enq[k]? = some r) ∧
    (∀ (k : Nat) (r : Rec), ((Sim.start mem sreg).run ops).ret[k]? = some r →
      ((Sim.start mem sreg).run ops).enq[k]? = some r) := by
  have hg := good_of_respects mem sreg ops h
  refine ⟨Sim.run_q ops (Sim.start mem sreg), hg.cb_le, hg.cmd_le, hg.disp_eq, hg.ret_eq,
    ?_, ?_⟩
  · intro k r hk
    rw [hg.disp_eq] at hk
    exact take_getElem_of_some _ _ _ _ hk
  · intro k r hk
    rw [hg.ret_eq] at hk
    exact take_getElem_of_some _ _ _ _ hk

/-- C4, instantiated at the sample run: three records enqueued, the first one
dispatched and retired. -/
theorem C4_fifo_witness :
    Respects (twiQueue.construct mem0 0x80) ops_sample ∧
    ((Sim.start mem0 0x80).run ops_sample).enq.length = 3 ∧
    ((Sim.start mem0 0x80).run ops_sample).ret =
      [{ slot := 0, buff := 100, addr := 0xA0, len := 3, donefunc := callback_fp.user 1 }] ∧
    ((Sim.start mem0 0x80).run ops_sample).ret =
      ((Sim.start mem0 0x80).run ops_sample).enq.take
        ((Sim.start mem0 0x80).run ops_sample).ret.length :=
  ⟨respects_sample, by decide, by decide,
    (C4_fifo mem0 0x80 ops_sample respects_sample).2.2.2.2.1⟩

/-- C5. Round trip to empty.  On an empty queue with valid cursors
(`iCallback == iCmd == iFree`, as in every reachable empty state),
`enqueue_w` of length 3 succeeds; `currCmd()` is then the enqueued record;
after `doneCmd` the engine writes `status = success` into `currCallback()`,
which is the enqueued record with the success bit set and the timeout bit
clear; after `doneCallback` the queue is empty again (`iCallback == iFree`,
`hasCmd()` and `hasCallback()` false) and each cursor has advanced by one
modulo 16. -/
theorem C5_round_trip (q : twiQueue) (hv : validCursors q)
    (he : q.iCallback = q.iCmd ∧ q.iCmd = q.iFree) (a d : Nat) (f : callback_fp) :
    let q1 := (enqueue_w q a d 3 f).2
    let q2 := doneCmd q1
    let q3 := q2.store q2.iCallback (fun s => { s with state := 1 <<< STATE_SUCCESS_BIT })
    let q4 := doneCallback q3
    (enqueue_w q a d 3 f).1 = true ∧
    hasCmd q1 = true ∧
    currCmd q1 = { buff := d, addr := addr_write a, state := (q.queue q.iFree).state,
                   len := 3, donefunc := f } ∧
    hasCallback q2 = true ∧
    currCallback q3 = { buff := d, addr := addr_write a, state := 1, len := 3,
                        donefunc := f } ∧
    (currCallback q3).state.testBit STATE_SUCCESS_BIT = true ∧
    (currCallback q3).state.testBit STATE_TIMEOUT_BIT = false ∧
    q4.iCallback = q4.iFree ∧ q4.iCmd = q4.iFree ∧
    hasCmd q4 = false ∧ hasCallback q4 = false ∧
    q4.iFree = (q.iFree + 1) % 16 ∧ q4.iCmd = (q.iCmd + 1) % 16 ∧
    q4.iCallback = (q.iCallback + 1) % 16 := by
  obtain ⟨-, -, hf⟩ := hv
  rw [validIndex_iff] at hf
  obtain ⟨he1, he2⟩ := he
  have hn := nextIndex_of_valid q.iFree hf.1 hf.2
  have hne : nextIndex q.iFree ≠ q.iFree := nextIndex_ne_self q.iFree hf.1 hf.2
  have hnf : nextIndex q.iFree ≠ q.iCallback := by rw [he1, he2]; exact hne
  intro q1 q2 q3 q4
  have e1 : enqueue_w q a d 3 f = _ := enqueue_rw_ok q (addr_write a) d 3 f hnf
  simp only [q4, q3, q2, q1, e1, doneCmd, doneCallback, twiQueue.store, hasCmd, hasCallback,
    currCmd, currCallback, he1, he2, STATE_SUCCESS_BIT, STATE_TIMEOUT_BIT]
  refine ⟨trivial, ?_, ?_, ?_, ?_, ?_, ?_, trivial, trivial, ?_, ?_, hn, hn, hn⟩
  · simpa using hne.symm
  · simp
  · simpa using hne.symm
  · simp
  · simp
  · simp
    decide
  · simp
  · simp

/-- C5, instantiated at the constructed queue. -/
theorem C5_round_trip_witness :
    validCursors (twiQueue.construct mem0 0x80) ∧
    (enqueue_w (twiQueue.construct mem0 0x80) 0x50 100 3 (callback_fp.user 1)).1 = true ∧
    hasCmd (enqueue_w (twiQueue.construct mem0 0x80) 0x50 100 3 (callback_fp.user 1)).2 = true :=
  ⟨by decide,
    (C5_round_trip (twiQueue.construct mem0 0x80) (by decide) ⟨rfl, rfl⟩ 0x50 100
      (callback_fp.user 1)).1,
    (C5_round_trip (twiQueue.construct mem0 0x80) (by decide) ⟨rfl, rfl⟩ 0x50 100
      (callback_fp.user 1)).2.1⟩

/-- C6 as stated fails: in a state with `hasCallback()` whose completion slot
holds a non-null `donefunc`, `doneCallback` makes no call at all. -/
theorem C6_counterexample :
    hasCallback q_pending = true ∧
    (currCallback q_pending).donefunc = callback_fp.user 1 ∧
    q_pending.calls = [] ∧
    (doneCallback q_pending).calls = [] ∧
    (doneCallback q_pending).calls ≠
      q_pending.calls ++ [((currCallback q_pending).donefunc, q_pending.iCallback)] := by
  refine ⟨?_, ?_, ?_, ?_, ?_⟩ <;> decide

/-- C6, amended. `doneCallback` only advances `iCallback` by one modulo 16.
It makes no call through any `donefunc`, null or not, and no call of
`kick_isr`; the slots (with the stored `donefunc`), `iCmd`, `iFree` and the
static members are as before. -/
theorem C6_doneCallback (q : twiQueue) (hv : validIndex q.iCallback = true) :
    (doneCallback q).iCallback = (q.iCallback + 1) % 16 ∧
    (doneCallback q).calls = q.calls ∧
    (doneCallback q).kicks = q.kicks ∧
    (doneCallback q).queue = q.queue ∧
    (doneCallback q).iCmd = q.iCmd ∧
    (doneCallback q).iFree = q.iFree ∧
    (doneCallback q)._blocking_callback_called = q._blocking_callback_called ∧
    (doneCallback q)._blocking_state = q._blocking_state ∧
    doneCallback q = { q with iCallback := nextIndex q.iCallback } := by
  rw [validIndex_iff] at hv
  exact ⟨nextIndex_of_valid q.iCallback hv.1 hv.2, rfl, rfl, rfl, rfl, rfl, rfl, rfl, rfl⟩

/-- C6 amended, instantiated at the state with a pending completion. -/
theorem C6_doneCallback_witness :
    validIndex q_pending.iCallback = true ∧
    (doneCallback q_pending).iCallback = (q_pending.iCallback + 1) % 16 ∧
    (doneCallback q_pending).calls = q_pending.calls :=
  ⟨by decide, (C6_doneCallback q_pending (by decide)).1,
    (C6_doneCallback q_pending (by decide)).2.1⟩

/-- C7 as stated fails: the state after an unguarded `doneCmd` on the
constructed queue is not full, `enqueue_rw` succeeds there, and `hasCmd()` is
false afterwards. -/
theorem C7_counterexample :
    validCursors q_overrun ∧
    nextIndex q_overrun.iFree ≠ q_overrun.iCallback ∧
    (enqueue_rw q_overrun 0xA0 100 3 (callback_fp.user 1)).1 = true ∧
    hasCmd (enqueue_rw q_overrun 0xA0 100 3 (callback_fp.user 1)).2 = false := by
  refine ⟨?_, ?_, ?_, ?_⟩ <;> decide

/-- C7, amended. On every queue that is not full, `enqueue_rw` returns true;
the slot at the old `iFree` holds `buff = data`, `addr = addr_rw`, `len = len`,
`donefunc = donefunc` and its old status; every other slot is as before;
`kick_isr` is called exactly once; `iFree` advances, `iCmd`, `iCallback` and
`SREG` are as before.  `hasCmd()` is true afterwards exactly when `iCmd` is
not the advanced `iFree`, which is the case on every queue with valid cursors
that satisfies the cursor-order invariant. -/
theorem C7_enqueue_rw (q : twiQueue) (hnf : nextIndex q.iFree ≠ q.iCallback)
    (addr_rw data len : Nat) (donefunc : callback_fp) :
    (enqueue_rw q addr_rw data len donefunc).1 = true ∧
    (enqueue_rw q addr_rw data len donefunc).2.queue q.iFree =
      { buff := data, addr := addr_rw, state := (q.queue q.iFree).state, len := len,
        donefunc := donefunc } ∧
    (∀ i, i ≠ q.iFree → (enqueue_rw q addr_rw data len donefunc).2.queue i = q.queue i) ∧
    (enqueue_rw q addr_rw data len donefunc).2.kicks = q.kicks + 1 ∧
    (enqueue_rw q addr_rw data len donefunc).2.iFree = nextIndex q.iFree ∧
    (enqueue_rw q addr_rw data len donefunc).2.iCmd = q.iCmd ∧
    (enqueue_rw q addr_rw data len donefunc).2.iCallback = q.iCallback ∧
    (enqueue_rw q addr_rw data len donefunc).2.SREG = q.SREG ∧
    (enqueue_rw q addr_rw data len donefunc).2.calls = q.calls ∧
    (hasCmd (enqueue_rw q addr_rw data len donefunc).2 = true ↔ q.iCmd ≠ nextIndex q.iFree) ∧
    (validCursors q → cursorOrder q →
      hasCmd (enqueue_rw q addr_rw data len donefunc).2 = true) := by
  rw [enqueue_rw_ok q addr_rw data len donefunc hnf]
  refine ⟨rfl, ?_, ?_, rfl, rfl, rfl, rfl, rfl, rfl, ?_, ?_⟩
  · simp
  · intro i hi
    simp [Function.update_noteq hi]
  · simp [hasCmd]
  · intro hv ho
    obtain ⟨hc, hb, hf⟩ := hv
    rw [validIndex_iff] at hc hb hf
    have hn := nextIndex_of_valid q.iFree hf.1 hf.2
    obtain ⟨ho1, -⟩ := ho
    simp only [hasCmd, decide_eq_true_eq]
    omega

/-- C7 amended, instantiated at the state after the sample run. -/
theorem C7_enqueue_rw_witness :
    nextIndex (run (twiQueue.construct mem0 0x80) ops_sample).iFree ≠
      (run (twiQueue.construct mem0 0x80) ops_sample).iCallback ∧
    (enqueue_rw (run (twiQueue.construct mem0 0x80) ops_sample) 0xA0 7 2
      callback_fp.NULL).1 = true ∧
    hasCmd (enqueue_rw (run (twiQueue.construct mem0 0x80) ops_sample) 0xA0 7 2
      callback_fp.NULL).2 = true :=
  ⟨by decide,
    (C7_enqueue_rw (run (twiQueue.construct mem0 0x80) ops_sample) (by decide) 0xA0 7 2
      callback_fp.NULL).1,
    (C7_enqueue_rw (run (twiQueue.construct mem0 0x80) ops_sample) (by decide) 0xA0 7 2
      callback_fp.NULL).2.2.2.2.2.2.2.2.2.2 (by decide) (by decide)⟩

/-- C8. Queue-full is a failure without side effects, and is recoverable.  On
every full queue with valid cursors (`nextIndex(iFree) == iCallback`),
`enqueue_r` and `enqueue_w` return false and leave the whole machine as it
was: cursors, slots, `SREG`, and no call of `kick_isr`.  After one
`doneCallback` the same enqueue succeeds. -/
theorem C8_full (q : twiQueue) (hv : validCursors q)
    (hfull : nextIndex q.iFree = q.iCallback) (addr data len : Nat) (donefunc : callback_fp) :
    enqueue_r q addr data len donefunc = (false, q) ∧
    enqueue_w q addr data len donefunc = (false, q) ∧
    (enqueue_r q addr data len donefunc).2.kicks = q.kicks ∧
    (enqueue_w q addr data len donefunc).2.kicks = q.kicks ∧
    (enqueue_r q addr data len donefunc).2.queue = q.queue ∧
    (enqueue_w q addr data len donefunc).2.queue = q.queue ∧
    (enqueue_r (doneCallback q) addr data len donefunc).1 = true ∧
    (enqueue_w (doneCallback q) addr data len donefunc).1 = true := by
  obtain ⟨-, hb, hf⟩ := hv
  rw [validIndex_iff] at hb hf
  have hr : enqueue_r q addr data len donefunc = (false, q) :=
    enqueue_rw_full q (addr_read addr) data len donefunc hfull
  have hw : enqueue_w q addr data len donefunc = (false, q) :=
    enqueue_rw_full q (addr_write addr) data len donefunc hfull
  have hne : nextIndex (doneCallback q).iFree ≠ (doneCallback q).iCallback := by
    simp only [doneCallback]
    rw [hfull]
    exact (nextIndex_ne_self q.iCallback hb.1 hb.2).symm
  have hr2 : enqueue_r (doneCallback q) addr data len donefunc = _ :=
    enqueue_rw_ok (doneCallback q) (addr_read addr) data len donefunc hne
  have hw2 : enqueue_w (doneCallback q) addr data len donefunc = _ :=
    enqueue_rw_ok (doneCallback q) (addr_write addr) data len donefunc hne
  rw [hr, hw, hr2, hw2]
  exact ⟨rfl, rfl, rfl, rfl, rfl, rfl, rfl, rfl⟩

/-- C8, instantiated at the queue filled by fifteen enqueues. -/
theorem C8_full_witness :
    validCursors q_full ∧ nextIndex q_full.iFree = q_full.iCallback ∧
    (enqueue_r q_full 0x50 100 3 (callback_fp.user 1)).1 = false ∧
    (enqueue_r (doneCallback q_full) 0x50 100 3 (callback_fp.user 1)).1 = true :=
  ⟨by decide, by decide,
    congrArg Prod.fst (C8_full q_full (by decide) (by decide) 0x50 100 3 (callback_fp.user 1)).1,
    (C8_full q_full (by decide) (by decide) 0x50 100 3 (callback_fp.user 1)).2.2.2.2.2.2.1⟩

theorem enqueue_rw_crit_ok (q : twiQueue) (a d l : Nat) (f : callback_fp)
    (h : nextIndex q.iFree ≠ q.iCallback) :
    enqueue_rw_crit q a d l f =
      (true, { q with
        queue := Function.update q.queue q.iFree
          { buff := d, addr := a, state := (q.queue q.iFree).state, len := l, donefunc := f },
        iFree := nextIndex q.iFree,
        kicks := q.kicks + 1 }) := by
  simp only [enqueue_rw_crit, allocFree_ok q h]
  simp [twiQueue.store, kick_isr]

theorem addr_read_eq (a : Nat) (h : a < 128) : addr_read a = 2 * a + 1 := by
  unfold addr_read TWI_ADR_BITS TWI_READ_BIT
  interval_cases a <;> rfl

theorem addr_write_eq (a : Nat) (h : a < 128) : addr_write a = 2 * a := by
  unfold addr_write TWI_ADR_BITS TWI_READ_BIT
  interval_cases a <;> rfl

/-- C9. Address/direction encoding.  For a 7-bit address `a`, `enqueue_r` and
`enqueue_rb` pass and store the byte `2*a + 1`, `enqueue_w` and `enqueue_wb`
the byte `2*a`: bit 0 is 1 for a read and 0 for a write, the byte fits in 8
bits, shifting it right by one gives back `a`, and distinct (address,
direction) pairs give distinct bytes. -/
theorem C9_address (a : Nat) (h : a < 128) :
    addr_read a = 2 * a + 1 ∧ addr_write a = 2 * a ∧
    (addr_read a).testBit TWI_READ_BIT = true ∧
    (addr_write a).testBit TWI_READ_BIT = false ∧
    addr_read a < 256 ∧ addr_write a < 256 ∧
    addr_read a >>> TWI_ADR_BITS = a ∧ addr_write a >>> TWI_ADR_BITS = a ∧
    (∀ b, b < 128 → (addr_read a = addr_read b ↔ a = b)) ∧
    (∀ b, b < 128 → (addr_write a = addr_write b ↔ a = b)) ∧
    (∀ b, b < 128 → addr_read a ≠ addr_write b) ∧
    (∀ q data len donefunc, nextIndex q.iFree ≠ q.iCallback →
      ((enqueue_r q a data len donefunc).2.queue q.iFree).addr = 2 * a + 1 ∧
      ((enqueue_w q a data len donefunc).2.queue q.iFree).addr = 2 * a) ∧
    (∀ isr fuel q data len donefunc,
      enqueue_rb isr fuel q a data len donefunc =
        enqueue_rwb isr fuel q (2 * a + 1) data len donefunc ∧
      enqueue_wb isr fuel q a data len donefunc =
        enqueue_rwb isr fuel q (2 * a) data len donefunc) ∧
    (∀ q data len donefunc, nextIndex q.iFree ≠ q.iCallback →
      ((enqueue_rw_crit q (addr_read a) data len donefunc).2.queue q.iFree).addr = 2 * a + 1 ∧
      ((enqueue_rw_crit q (addr_write a) data len donefunc).2.queue q.iFree).addr = 2 * a) := by
  have hr := addr_read_eq a h
  have hw := addr_write_eq a h
  refine ⟨hr, hw, ?_, ?_, ?_, ?_, ?_, ?_, ?_, ?_, ?_, ?_, ?_, ?_⟩
  · rw [hr]; simp [TWI_READ_BIT, Nat.testBit_zero]; omega
  · rw [hw]; simp [TWI_READ_BIT, Nat.testBit_zero]
  · omega
  · omega
  · rw [hr]; simp only [TWI_ADR_BITS, Nat.shiftRight_succ, Nat.shiftRight_zero]; omega
  · rw [hw]; simp only [TWI_ADR_BITS, Nat.shiftRight_succ, Nat.shiftRight_zero]; omega
  · intro b hb
    rw [hr, addr_read_eq b hb]; omega
  · intro b hb
    rw [hw, addr_write_eq b hb]; omega
  · intro b hb
    rw [hr, addr_write_eq b hb]; omega
  · intro q data len donefunc hnf
    have e1 : enqueue_r q a data len donefunc = _ :=
      enqueue_rw_ok q (addr_read a) data len donefunc hnf
    have e2 : enqueue_w q a data len donefunc = _ :=
      enqueue_rw_ok q (addr_write a) data len donefunc hnf
    rw [e1, e2]
    simp [hr, hw]
  · intro isr fuel q data len donefunc
    simp only [enqueue_rb, enqueue_wb, hr, hw, and_self]
  · intro q data len donefunc hnf
    rw [enqueue_rw_crit_ok q _ data len donefunc hnf,
      enqueue_rw_crit_ok q _ data len donefunc hnf]
    simp [hr, hw]

/-- C9, instantiated at the address 0x50. -/
theorem C9_address_witness :
    (0x50 : Nat) < 128 ∧ addr_read 0x50 = 0xA1 ∧ addr_write 0x50 = 0xA0 :=
  ⟨by decide, (C9_address 0x50 (by decide)).1, (C9_address 0x50 (by decide)).2.1⟩

/-! ## The blocking enqueue -/

theorem success_of_iff (s : Nat) :
    success_of s = true ↔ s.testBit STATE_SUCCESS_BIT = true := by
  simp only [success_of, STATE_SUCCESS_BIT, Nat.shiftLeft_zero, Nat.and_one_is_mod,
    decide_eq_true_eq, Nat.testBit_zero]
  omega

theorem success_of_congr (s s' : Nat)
    (h : s.testBit STATE_SUCCESS_BIT = s'.testBit STATE_SUCCESS_BIT) :
    success_of s = success_of s' := by
  have h1 := success_of_iff s
  have h2 := success_of_iff s'
  cases hs : success_of s <;> cases hs' : success_of s' <;> simp_all

theorem enqueue_rwb_result (isr : twiQueue → twiQueue) (fuel : Nat) (q : twiQueue)
    (a d l : Nat) (f : callback_fp) (h : (enqueue_rwb isr fuel q a d l f).isSome = true) :
    ∃ q', enqueue_rwb isr fuel q a d l f = some (success_of q'._blocking_state, q') := by
  unfold enqueue_rwb at h ⊢
  simp only at h ⊢
  split
  · rename_i h1; rw [h1] at h; simp at h
  · rename_i q4 h1
    rw [h1] at h
    simp only at h
    split
    · rename_i h2; rw [h2] at h; simp at h
    · rename_i q5 h2
      exact ⟨{ q5 with SREG := q.SREG }, rfl⟩

theorem enqueue_retry_ok (isr : twiQueue → twiQueue) (a d l fuel : Nat) (q : twiQueue)
    (h : nextIndex q.iFree ≠ q.iCallback) :
    enqueue_retry isr a d l fuel q =
      some (enqueue_rw_crit q a d l callback_fp.blocking_callback).2 := by
  cases fuel <;> simp [enqueue_retry, enqueue_rw_crit_ok q a d l _ h]

theorem wait_called_done (isr : twiQueue → twiQueue) (fuel : Nat) (q : twiQueue)
    (h : q._blocking_callback_called = true) : wait_called isr fuel q = some q := by
  cases fuel <;> simp [wait_called, h]

theorem wait_called_engine (s fuel : Nat) (q1 : twiQueue) (i : Int)
    (hne : nextIndex i ≠ i)
    (hflag : q1._blocking_callback_called = false)
    (h1 : q1.iCmd = i) (h2 : q1.iCallback = i) (h3 : q1.iFree = nextIndex i)
    (h4 : (q1.queue i).donefunc = callback_fp.blocking_callback) :
    ∃ q', wait_called (engine_complete s) (fuel + 1) q1 = some q' ∧
      q'._blocking_state = s ∧ q'.iFree = q1.iFree := by
  have hc : hasCmd q1 = true := by
    simp only [hasCmd, decide_eq_true_eq, h1, h3]; exact hne.symm
  have hb : hasCallback (doneCmd q1) = true := by
    simp only [hasCallback, doneCmd, decide_eq_true_eq, h1, h2]; exact hne.symm
  have hstep : (engine_complete s q1)._blocking_callback_called = true ∧
      (engine_complete s q1)._blocking_state = s ∧
      (engine_complete s q1).iFree = q1.iFree := by
    simp only [engine_complete, hc, hb, if_true]
    simp only [doneCallback, invoke, currCallback, twiQueue.store, doneCmd, h2,
      Function.update_same, h4, blocking_callback]
    split <;> simp
  simp only [wait_called, hflag, Bool.false_eq_true, if_false]
  rw [wait_called_done _ _ _ hstep.1]
  exact ⟨_, rfl, hstep.2.1, hstep.2.2⟩

theorem enqueue_rwb_engine (s : Nat) (q : twiQueue) (hv : validCursors q)
    (he1 : q.iCallback = q.iCmd) (he2 : q.iCmd = q.iFree) (fuel a d l : Nat)
    (f : callback_fp) :
    ∃ q', enqueue_rwb (engine_complete s) (fuel + 1) q a d l f = some (success_of s, q') ∧
      q'._blocking_state = s ∧ q'.SREG = q.SREG ∧ q'.iFree = nextIndex q.iFree := by
  obtain ⟨-, -, hf⟩ := hv
  rw [validIndex_iff] at hf
  have hne : nextIndex q.iFree ≠ q.iFree := nextIndex_ne_self q.iFree hf.1 hf.2
  obtain ⟨q3, hq3⟩ : ∃ q3, q3 = cli { { q with _blocking_callback_called := false } with
      _blocking_donefunc := f } := ⟨_, rfl⟩
  have h3F : q3.iFree = q.iFree := by rw [hq3]; rfl
  have h3C : q3.iCmd = q.iFree := by rw [hq3]; exact he2
  have h3B : q3.iCallback = q.iFree := by rw [hq3]; exact he1.trans he2
  have h3flag : q3._blocking_callback_called = false := by rw [hq3]; rfl
  have hnf : nextIndex q3.iFree ≠ q3.iCallback := by rw [h3F, h3B]; exact hne
  have hcrit := enqueue_rw_crit_ok q3 a d l callback_fp.blocking_callback hnf
  obtain ⟨q', hw, hs, hfree⟩ := wait_called_engine s fuel
    (sei (enqueue_rw_crit q3 a d l callback_fp.blocking_callback).2) q.iFree hne
    (by rw [hcrit]; exact h3flag) (by rw [hcrit]; exact h3C) (by rw [hcrit]; exact h3B)
    (by rw [hcrit]; simp only [sei]; rw [h3F])
    (by rw [hcrit]; simp only [sei]; rw [h3F]; simp)
  unfold enqueue_rwb
  simp only
  rw [← hq3, enqueue_retry_ok _ _ _ _ _ _ hnf]
  simp only [hw]
  refine ⟨{ q' with SREG := q.SREG }, ?_, hs, rfl, ?_⟩
  · simp only [hs]
  · simp only [hfree]
    rw [hcrit]
    simp only [sei]
    rw [h3F]

/-- C10. Return value of the blocking enqueue.  Whenever `enqueue_rwb`
returns (for any behaviour `isr` of the interrupt context), and likewise
`enqueue_rb` / `enqueue_wb`, the value returned is true exactly when bit 0
(the success bit) of the status held in `_blocking_state` at that moment is
set.  A status with only the timeout bit set gives false, and two statuses
that agree on bit 0 give the same result.  With an engine that completes the
transaction with status `s` through the bridging callback, the call made on
an empty queue returns, and returns the success bit of `s`. -/
theorem C10_blocking_return (isr : twiQueue → twiQueue) (fuel : Nat) (q : twiQueue)
    (addr_rw data len : Nat) (donefunc : callback_fp)
    (h : (enqueue_rwb isr fuel q addr_rw data len donefunc).isSome = true) :
    (∃ q', enqueue_rwb isr fuel q addr_rw data len donefunc =
        some (success_of q'._blocking_state, q') ∧
      (success_of q'._blocking_state = true ↔
        q'._blocking_state.testBit STATE_SUCCESS_BIT = true)) ∧
    (∀ addr, (enqueue_rb isr fuel q addr data len donefunc).isSome = true →
      ∃ q', enqueue_rb isr fuel q addr data len donefunc =
        some (success_of q'._blocking_state, q')) ∧
    (∀ addr, (enqueue_wb isr fuel q addr data len donefunc).isSome = true →
      ∃ q', enqueue_wb isr fuel q addr data len donefunc =
        some (success_of q'._blocking_state, q')) ∧
    (∀ s, success_of s = true ↔ s.testBit STATE_SUCCESS_BIT = true) ∧
    success_of (1 <<< STATE_TIMEOUT_BIT) = false ∧
    (∀ s s', s.testBit STATE_SUCCESS_BIT = s'.testBit STATE_SUCCESS_BIT →
      success_of s = success_of s') ∧
    (∀ s q0 n, validCursors q0 → q0.iCallback = q0.iCmd → q0.iCmd = q0.iFree →
      ∃ q', enqueue_rwb (engine_complete s) (n + 1) q0 addr_rw data len donefunc =
          some (success_of s, q') ∧ q'._blocking_state = s) := by
  refine ⟨?_, ?_, ?_, success_of_iff, by decide, success_of_congr, ?_⟩
  · obtain ⟨q', hq'⟩ := enqueue_rwb_result isr fuel q addr_rw data len donefunc h
    exact ⟨q', hq', success_of_iff _⟩
  · intro addr ha
    exact enqueue_rwb_result isr fuel q (addr_read addr) data len donefunc ha
  · intro addr ha
    exact enqueue_rwb_result isr fuel q (addr_write addr) data len donefunc ha
  · intro s q0 n hv h1 h2
    obtain ⟨q', hq', hs, -, -⟩ := enqueue_rwb_engine s q0 hv h1 h2 n addr_rw data len donefunc
    exact ⟨q', hq', hs⟩

/-- C10, instantiated with the engine that reports status 1 (success) to a
call made on the constructed queue. -/
theorem C10_blocking_return_witness :
    (enqueue_rwb (engine_complete 1) 1 (twiQueue.construct mem0 0x80) 0xA0 100 3
      (callback_fp.user 1)).isSome = true ∧
    ∃ q', enqueue_rwb (engine_complete 1) 1 (twiQueue.construct mem0 0x80) 0xA0 100 3
        (callback_fp.user 1) = some (success_of q'._blocking_state, q') ∧
      (success_of q'._blocking_state = true ↔
        q'._blocking_state.testBit STATE_SUCCESS_BIT = true) :=
  ⟨by decide,
    (C10_blocking_return (engine_complete 1) 1 (twiQueue.construct mem0 0x80) 0xA0 100 3
      (callback_fp.user 1) (by decide)).1⟩

/-! ## Bus bring-up -/

theorem and_clear_low2 (x : Nat) : (x &&& 252) % 4 = 0 := by
  have h := Nat.and_pow_two_sub_one_eq_mod (x &&& 252) 2
  have h2 : (x &&& 252) &&& 3 = 0 := by
    have h3 : (252 &&& 3 : Nat) = 0 := by decide
    rw [Nat.and_assoc, h3, Nat.and_zero]
  have h4 : (2 ^ 2 - 1 : Nat) = 3 := by decide
  rw [h4, h2] at h
  have h5 : (2 ^ 2 : Nat) = 4 := by decide
  rw [h5] at h
  exact h.symm

/-- C13. Timeout threshold arithmetic in `i2c_master_initialize`.  Whatever
the registers held before, afterwards `TWBR` is 12 and the prescaler bits are
clear, so the bus-clock period is `16 + 2*12 = 40` CPU cycles (400 kHz at
16 MHz); the compare register holds
`(16 + 2*TWI_TWBR) * TIMEOUT_TWI_CLOCKS + 1 = 40*32 + 1 = 1281`, that is 32
bus-clock periods plus one, which is more than the 13 bus clocks (520 cycles)
of the shortest transaction and fits the 16-bit register. -/
theorem C13_timeout_threshold (r : Regs) :
    ( i2c_master_initialize r).TWBR = TWI_TWBR ∧
    ( i2c_master_initialize r).TWBR = 12 ∧
    ( i2c_master_initialize r).TWSR % 4 = 0 ∧
    scl_period ( i2c_master_initialize r) = 16 + 2 * 12 ∧
    scl_period ( i2c_master_initialize r) = 40 ∧
    16000000 / scl_period ( i2c_master_initialize r) = 400000 ∧
    ( i2c_master_initialize r).OCR5A = (16 + 2 * TWI_TWBR) * TIMEOUT_TWI_CLOCKS + 1 ∧
    ( i2c_master_initialize r).OCR5A = 40 * 32 + 1 ∧
    ( i2c_master_initialize r).OCR5A = 1281 ∧
    ( i2c_master_initialize r).OCR5A =
      TIMEOUT_TWI_CLOCKS * scl_period ( i2c_master_initialize r) + 1 ∧
    13 * scl_period ( i2c_master_initialize r) = 520 ∧
    13 * scl_period ( i2c_master_initialize r) < ( i2c_master_initialize r).OCR5A ∧
    ( i2c_master_initialize r).OCR5A < 65536 := by
  have hb : ( i2c_master_initialize r).TWBR = 12 := rfl
  have hs : ( i2c_master_initialize r).TWSR % 4 = 0 := and_clear_low2 r.TWSR
  have ho : ( i2c_master_initialize r).OCR5A = 1281 := rfl
  have hp : scl_period ( i2c_master_initialize r) = 40 := by
    unfold scl_period
    rw [hb, hs]
    decide
  rw [hp, ho]
  exact ⟨rfl, hb, hs, rfl, rfl, rfl, rfl, rfl, rfl, rfl, rfl, by decide, by decide⟩

/-! ## Runs that ignore the preconditions -/

theorem valid_step (q : twiQueue) (hv : validCursors q) (o : Op) : validCursors (o.step q) := by
  obtain ⟨hc, hb, hf⟩ := hv
  have hc' := (validIndex_iff _).1 hc
  have hb' := (validIndex_iff _).1 hb
  have hf' := (validIndex_iff _).1 hf
  have hnc := nextIndex_range q.iCmd hc'.1 hc'.2
  have hnb := nextIndex_range q.iCallback hb'.1 hb'.2
  have hnf := nextIndex_range q.iFree hf'.1 hf'.2
  cases o with
  | alloc =>
    by_cases h : nextIndex q.iFree = q.iCallback
    · simp only [Op.step, allocFree_full q h]; exact ⟨hc, hb, hf⟩
    · simp only [Op.step, allocFree_ok q h]; exact ⟨hc, hb, (validIndex_iff _).2 hnf⟩
  | enqueue a d l f =>
    by_cases h : nextIndex q.iFree = q.iCallback
    · simp only [Op.step, enqueue_rw_full q a d l f h]; exact ⟨hc, hb, hf⟩
    · simp only [Op.step, enqueue_rw_ok q a d l f h]; exact ⟨hc, hb, (validIndex_iff _).2 hnf⟩
  | doneCmd => exact ⟨(validIndex_iff _).2 hnc, hb, hf⟩
  | doneCallback => exact ⟨hc, (validIndex_iff _).2 hnb, hf⟩
  | setState p v => exact ⟨hc, hb, hf⟩

theorem valid_run (ops : List Op) : ∀ q, validCursors q → validCursors (run q ops) := by
  induction ops with
  | nil => intro q hv; exact hv
  | cons o os ih => intro q hv; exact ih _ (valid_step q hv o)

/-- C17. Indices stay in bounds.  For a valid index `i`, `nextIndex(i)` is
`(i + 1) mod 16` and is valid again.  After any sequence of steps from the
constructed queue, whether or not the preconditions of `doneCmd` and
`doneCallback` are respected, `iFree`, `iCmd` and `iCallback` are valid
indices, and so is the index of a slot handed out by `allocFree`. -/
theorem C17_in_bounds (i : Int) (h0 : 0 ≤ i) (h1 : i < 16) :
    nextIndex i = (i + 1) % 16 ∧
    validIndex (nextIndex i) = true ∧
    (∀ mem sreg ops,
      validIndex (run (twiQueue.construct mem sreg) ops).iFree = true ∧
      validIndex (run (twiQueue.construct mem sreg) ops).iCmd = true ∧
      validIndex (run (twiQueue.construct mem sreg) ops).iCallback = true ∧
      (∀ p, (allocFree (run (twiQueue.construct mem sreg) ops)).1 = some p →
        validIndex p = true)) := by
  refine ⟨nextIndex_of_valid i h0 h1, (validIndex_iff _).2 (nextIndex_range i h0 h1), ?_⟩
  intro mem sreg ops
  have hv : validCursors (run (twiQueue.construct mem sreg) ops) :=
    valid_run ops _ (by simp [validCursors, twiQueue.construct, validIndex, qSize, NQBits])
  refine ⟨hv.2.2, hv.1, hv.2.1, ?_⟩
  intro p hp
  by_cases h : nextIndex (run (twiQueue.construct mem sreg) ops).iFree =
      (run (twiQueue.construct mem sreg) ops).iCallback
  · rw [allocFree_full _ h] at hp
    exact absurd hp (by simp)
  · rw [allocFree_ok _ h] at hp
    simp only [Option.some.injEq] at hp
    rw [← hp]
    exact hv.2.2

/-- C17, instantiated at the last index, where `nextIndex` wraps to 0. -/
theorem C17_in_bounds_witness :
    (0 : Int) ≤ 15 ∧ (15 : Int) < 16 ∧ nextIndex 15 = (15 + 1) % 16 ∧
    validIndex (nextIndex 15) = true :=
  ⟨by decide, by decide, (C17_in_bounds 15 (by decide) (by decide)).1,
    (C17_in_bounds 15 (by decide) (by decide)).2.1⟩

/-- C19. The advance operations do not guard their preconditions.  On the
freshly constructed queue `hasCmd()` and `hasCallback()` are false and nothing
has been enqueued; an unguarded `doneCmd` makes both true, and the cursor-order
invariant fails afterwards; an unguarded `doneCallback` makes the next
`allocFree` return `NOSTATE`, and the next `enqueue_rw` fail, with nothing
outstanding. -/
theorem C19_unguarded (mem : Int → state_s) (sreg : Nat) :
    hasCmd (twiQueue.construct mem sreg) = false ∧
    hasCallback (twiQueue.construct mem sreg) = false ∧
    hasCmd (doneCmd (twiQueue.construct mem sreg)) = true ∧
    hasCallback (doneCmd (twiQueue.construct mem sreg)) = true ∧
    ((Sim.start mem sreg).run [Op.doneCmd]).enq = [] ∧
    (allocFree (doneCallback (twiQueue.construct mem sreg))).1 = none ∧
    (∀ a d l f, (enqueue_rw (doneCallback (twiQueue.construct mem sreg)) a d l f).1 = false) ∧
    ((Sim.start mem sreg).run [Op.doneCallback]).enq = [] ∧
    cursorOrder (twiQueue.construct mem sreg) ∧
    ¬ cursorOrder (doneCmd (twiQueue.construct mem sreg)) ∧
    (∃ ops, ¬ Respects (twiQueue.construct mem sreg) ops ∧
      ¬ cursorOrder (run (twiQueue.construct mem sreg) ops)) := by
  have hn : nextIndex 0 = 1 := by decide
  have hfull : nextIndex (doneCallback (twiQueue.construct mem sreg)).iFree =
      (doneCallback (twiQueue.construct mem sreg)).iCallback := by
    simp [doneCallback, twiQueue.construct, hn]
  have hbad : ¬ cursorOrder (doneCmd (twiQueue.construct mem sreg)) := by
    simp [cursorOrder, doneCmd, twiQueue.construct, hn]
  refine ⟨?_, ?_, ?_, ?_, rfl, ?_, ?_, rfl, ?_, hbad, [Op.doneCmd], ?_, hbad⟩
  · simp [hasCmd, twiQueue.construct]
  · simp [hasCallback, twiQueue.construct]
  · simp [hasCmd, doneCmd, twiQueue.construct, hn]
  · simp [hasCallback, doneCmd, twiQueue.construct, hn]
  · rw [allocFree_full _ hfull]
  · intro a d l f
    rw [enqueue_rw_full _ a d l f hfull]
  · simp [cursorOrder, twiQueue.construct]
  · simp [Respects, Op.pre, hasCmd, twiQueue.construct]

/-! ## Counting dispatches and retirements -/

theorem Sim.step_lengths (t : Sim) (o : Op) :
    (t.step o).disp.length = t.disp.length + countCmd [o] ∧
    (t.step o).ret.length = t.ret.length + countCallback [o] ∧
    ∃ l, (t.step o).enq = t.enq ++ l := by
  cases o with
  | alloc =>
    by_cases h : nextIndex t.q.iFree = t.q.iCallback
    · rw [Sim.step_alloc_full t h]; exact ⟨rfl, rfl, [], by simp⟩
    · rw [Sim.step_alloc_ok t h]; exact ⟨rfl, rfl, _, rfl⟩
  | enqueue a d l f =>
    by_cases h : nextIndex t.q.iFree = t.q.iCallback
    · rw [Sim.step_enqueue_full t a d l f h]; exact ⟨rfl, rfl, [], by simp⟩
    · rw [Sim.step_enqueue_ok t a d l f h]; exact ⟨rfl, rfl, _, rfl⟩
  | doneCmd => exact ⟨by simp [Sim.step, countCmd], rfl, [], by simp [Sim.step]⟩
  | doneCallback => exact ⟨rfl, by simp [Sim.step, countCallback], [], by simp [Sim.step]⟩
  | setState p v => exact ⟨rfl, rfl, [], by simp [Sim.step]⟩

theorem countCmd_cons (o : Op) (os : List Op) : countCmd (o :: os) = countCmd [o] + countCmd os := by
  cases o <;> simp [countCmd]; omega

theorem countCallback_cons (o : Op) (os : List Op) :
    countCallback (o :: os) = countCallback [o] + countCallback os := by
  cases o <;> simp [countCallback]; omega

theorem Sim.run_lengths (ops : List Op) : ∀ t : Sim,
    (t.run ops).disp.length = t.disp.length + countCmd ops ∧
    (t.run ops).ret.length = t.ret.length + countCallback ops ∧
    ∃ l, (t.run ops).enq = t.enq ++ l := by
  induction ops with
  | nil => intro t; exact ⟨rfl, rfl, [], by simp [Sim.run]⟩
  | cons o os ih =>
    intro t
    obtain ⟨h1, h2, l1, h3⟩ := Sim.step_lengths t o
    obtain ⟨h4, h5, l2, h6⟩ := ih (t.step o)
    simp only [Sim.run]
    refine ⟨?_, ?_, l1 ++ l2, ?_⟩
    · have hc := countCmd_cons o os
      omega
    · have hc := countCallback_cons o os
      omega
    · rw [h6, h3, List.append_assoc]

theorem Sim.run_append (xs ys : List Op) : ∀ t : Sim, t.run (xs ++ ys) = (t.run xs).run ys := by
  induction xs with
  | nil => intro t; rfl
  | cons o os ih => intro t; simp only [List.cons_append, Sim.run]; exact ih _

theorem respects_take (ops : List Op) : ∀ (q : twiQueue) (k : Nat),
    Respects q ops → Respects q (ops.take k) := by
  induction ops with
  | nil => intro q k h; simpa using h
  | cons o os ih =>
    intro q k h
    cases k with
    | zero => simp [Respects]
    | succ k => exact ⟨h.1, ih _ k h.2⟩

theorem good_push_length (t : Sim) (hg : Good t) (hlt : t.enq.length < t.ret.length + 15)
    (o : Op) (ho : o = Op.alloc ∨ ∃ a d l f, o = Op.enqueue a d l f) :
    (t.step o).enq.length = t.enq.length + 1 ∧ (t.step o).ret = t.ret ∧
    (t.step o).disp = t.disp := by
  have hnf : nextIndex t.q.iFree ≠ t.q.iCallback := by
    intro e
    have := (good_full_iff t hg).1 e
    omega
  rcases ho with rfl | ⟨a, d, l, f, rfl⟩
  · rw [Sim.step_alloc_ok t hnf]; simp
  · rw [Sim.step_enqueue_ok t a d l f hnf]; simp

/-- The record of the j-th successful allocation names slot `j mod 16`. -/
theorem slot_of_enq (ops : List Op) : ∀ t : Sim, Good t →
    (∀ (j : Nat) (r : Rec), t.enq[j]? = some r → r.slot = ((j % 16 : Nat) : Int)) →
    Respects t.q ops →
    ∀ (j : Nat) (r : Rec), (t.run ops).enq[j]? = some r → r.slot = ((j % 16 : Nat) : Int) := by
  induction ops with
  | nil => intro t _ hs _; exact hs
  | cons o os ih =>
    intro t hg hs hr
    have hg' := good_step t hg o hr.1
    have hr' : Respects (t.step o).q os := by rw [Sim.step_q]; exact hr.2
    apply ih (t.step o) hg' ?_ hr'
    intro j r hj
    have key : ∀ (q' : twiQueue) (x : Rec), x.slot = t.q.iFree →
        ({ t with q := q', enq := t.enq ++ [x] } : Sim).enq[j]? = some r →
        r.slot = ((j % 16 : Nat) : Int) := by
      intro q' x hx hj'
      simp only at hj'
      by_cases hlt : j < t.enq.length
      · rw [List.getElem?_append_left hlt] at hj'
        exact hs j r hj'
      · by_cases heq : j = t.enq.length
        · subst heq
          simp at hj'
          rw [← hj', hx, hg.hFree]
        · rw [List.getElem?_eq_none (by simp; omega)] at hj'
          exact absurd hj' (by simp)
    cases o with
    | alloc =>
      by_cases h : nextIndex t.q.iFree = t.q.iCallback
      · rw [Sim.step_alloc_full t h] at hj; exact hs j r hj
      · rw [Sim.step_alloc_ok t h] at hj; exact key _ _ rfl hj
    | enqueue a d l f =>
      by_cases h : nextIndex t.q.iFree = t.q.iCallback
      · rw [Sim.step_enqueue_full t a d l f h] at hj; exact hs j r hj
      · rw [Sim.step_enqueue_ok t a d l f h] at hj; exact key _ _ rfl hj
    | doneCmd => exact hs j r (by simpa [Sim.step] using hj)
    | doneCallback => exact hs j r (by simpa [Sim.step] using hj)
    | setState p v => exact hs j r (by simpa [Sim.step] using hj)

theorem barrier_first_three (mem : Int → state_s) (sreg : Nat) :
    Good ((Sim.start mem sreg).run (barrier_scenario [])) ∧
    ((Sim.start mem sreg).run (barrier_scenario [])).enq.length = 3 := by
  have g0 := good_start mem sreg
  have e0 : (Sim.start mem sreg).enq.length = 0 := rfl
  have r0 : (Sim.start mem sreg).ret.length = 0 := rfl
  obtain ⟨l1, k1, -⟩ := good_push_length _ g0 (by omega)
    (Op.enqueue 0xA0 100 3 (callback_fp.user 1)) (Or.inr ⟨_, _, _, _, rfl⟩)
  have g1 := good_enqueue _ g0 0xA0 100 3 (callback_fp.user 1)
  obtain ⟨l2, k2, -⟩ := good_push_length _ g1 (by rw [l1, k1]; omega)
    (Op.enqueue 0xA0 200 2 (callback_fp.user 2)) (Or.inr ⟨_, _, _, _, rfl⟩)
  have g2 := good_enqueue _ g1 0xA0 200 2 (callback_fp.user 2)
  obtain ⟨l3, k3, -⟩ := good_push_length _ g2 (by rw [l2, k2, l1, k1]; omega)
    Op.alloc (Or.inl rfl)
  have g3 := good_alloc _ g2
  refine ⟨g3, ?_⟩
  show (((((Sim.start mem sreg).step _).step _).step _)).enq.length = 3
  rw [l3, l2, l1, e0]

/-- C15. Completion never overtakes dispatch.  Along every run from the
constructed queue that respects the preconditions, and at every point of it,
the number of `doneCallback` calls is at most the number of `doneCmd` calls,
which is at most the number of successful allocations; the j-th retirement
concerns the record of the j-th allocation, in slot `j mod 16`.  In the
barrier scenario (two writes, then the barrier's allocation, then any
respecting continuation, possibly with further enqueues) the three
allocations succeed and a third `doneCallback`, the one that retires the
barrier's slot 2, can only happen when three `doneCmd` calls have been made. -/
theorem C15_no_overtake (mem : Int → state_s) (sreg : Nat) (ops : List Op)
    (h : Respects (twiQueue.construct mem sreg) ops) :
    countCallback ops = ((Sim.start mem sreg).run ops).ret.length ∧
    countCmd ops = ((Sim.start mem sreg).run ops).disp.length ∧
    countCallback ops ≤ countCmd ops ∧
    countCmd ops ≤ ((Sim.start mem sreg).run ops).enq.length ∧
    (∀ k, countCallback (ops.take k) ≤ countCmd (ops.take k) ∧
      countCmd (ops.take k) ≤ ((Sim.start mem sreg).run (ops.take k)).enq.length) ∧
    (∀ (j : Nat) (r : Rec), ((Sim.start mem sreg).run ops).ret[j]? = some r →
      j < countCmd ops ∧ ((Sim.start mem sreg).run ops).enq[j]? = some r ∧
      r.slot = ((j % 16 : Nat) : Int)) ∧
    (∀ rest, Respects (twiQueue.construct mem sreg) (barrier_scenario rest) →
      3 ≤ ((Sim.start mem sreg).run (barrier_scenario rest)).enq.length ∧
      (∀ k, 3 ≤ countCallback ((barrier_scenario rest).take k) →
        3 ≤ countCmd ((barrier_scenario rest).take k)) ∧
      (∀ r, ((Sim.start mem sreg).run (barrier_scenario rest)).ret[2]? = some r →
        r.slot = 2 ∧ 3 ≤ countCmd (barrier_scenario rest))) := by
  have main : ∀ os, Respects (twiQueue.construct mem sreg) os →
      Good ((Sim.start mem sreg).run os) ∧
      countCallback os = ((Sim.start mem sreg).run os).ret.length ∧
      countCmd os = ((Sim.start mem sreg).run os).disp.length ∧
      countCallback os ≤ countCmd os ∧
      countCmd os ≤ ((Sim.start mem sreg).run os).enq.length := by
    intro os hr
    have hg := good_of_respects mem sreg os hr
    obtain ⟨h1, h2, -⟩ := Sim.run_lengths os (Sim.start mem sreg)
    have e1 : (Sim.start mem sreg).disp.length = 0 := rfl
    have e2 : (Sim.start mem sreg).ret.length = 0 := rfl
    have h3 := hg.cb_le
    have h4 := hg.cmd_le
    exact ⟨hg, by omega, by omega, by omega, by omega⟩
  have retired : ∀ os, Respects (twiQueue.construct mem sreg) os →
      ∀ (j : Nat) (r : Rec), ((Sim.start mem sreg).run os).ret[j]? = some r →
      j < countCmd os ∧ ((Sim.start mem sreg).run os).enq[j]? = some r ∧
      r.slot = ((j % 16 : Nat) : Int) := by
    intro os hr j r hj
    obtain ⟨hg, m1, m2, m3, m4⟩ := main os hr
    have hlt : j < ((Sim.start mem sreg).run os).ret.length := by
      by_contra hc
      rw [List.getElem?_eq_none (by omega)] at hj
      exact absurd hj (by simp)
    have he : ((Sim.start mem sreg).run os).enq[j]? = some r := by
      rw [hg.ret_eq] at hj
      exact take_getElem_of_some _ _ _ _ hj
    refine ⟨by omega, he, ?_⟩
    exact slot_of_enq os (Sim.start mem sreg) (good_start mem sreg)
      (by intro j r hj; simp [Sim.start] at hj) hr j r he
  obtain ⟨-, m1, m2, m3, m4⟩ := main ops h
  refine ⟨m1, m2, m3, m4, ?_, retired ops h, ?_⟩
  · intro k
    obtain ⟨-, -, -, n3, n4⟩ := main (ops.take k) (respects_take ops _ k h)
    exact ⟨n3, n4⟩
  · intro rest hr
    refine ⟨?_, ?_, ?_⟩
    · have hb := (barrier_first_three mem sreg).2
      have happ : barrier_scenario rest = barrier_scenario [] ++ rest := rfl
      rw [happ, Sim.run_append]
      obtain ⟨-, -, l, hl⟩ := Sim.run_lengths rest ((Sim.start mem sreg).run (barrier_scenario []))
      rw [hl, List.length_append]
      omega
    · intro k hk
      obtain ⟨-, -, -, n3, -⟩ := main ((barrier_scenario rest).take k) (respects_take _ _ k hr)
      omega
    · intro r hj
      obtain ⟨r1, -, r3⟩ := retired (barrier_scenario rest) hr 2 r hj
      exact ⟨by simpa using r3, by omega⟩

/-- C15, instantiated at the barrier scenario continued by dispatching and
retiring everything, with a third write enqueued in between. -/
theorem C15_no_overtake_witness :
    Respects (twiQueue.construct mem0 0x80) (barrier_scenario barrier_rest) ∧
    countCallback (barrier_scenario barrier_rest) = 3 ∧
    countCallback (barrier_scenario barrier_rest) ≤ countCmd (barrier_scenario barrier_rest) :=
  ⟨by simp only [barrier_scenario, barrier_rest, Respects, Op.pre, Op.step, and_true, true_and]
      refine ⟨?_, ?_, ?_, ?_, ?_, ?_⟩ <;> decide,
    by decide,
    (C15_no_overtake mem0 0x80 (barrier_scenario barrier_rest)
      (by simp only [barrier_scenario, barrier_rest, Respects, Op.pre, Op.step, and_true,
            true_and]
          refine ⟨?_, ?_, ?_, ?_, ?_, ?_⟩ <;> decide)).2.2.1⟩

/-- C18. An outstanding slot is never handed out again.  In every state
reached from the constructed queue with the preconditions respected, the
index returned by a successful `allocFree` is none of the outstanding indices
`iCallback, iCallback+1, ..., iFree-1` (mod 16); `enqueue_rw` leaves every
outstanding slot as it was; and every record enqueued and not yet retired by
`doneCallback` is still in its slot, whatever was enqueued after it. -/
theorem C18_no_reuse (mem : Int → state_s) (sreg : Nat) (ops : List Op)
    (h : Respects (twiQueue.construct mem sreg) ops) :
    (∀ p, (allocFree (run (twiQueue.construct mem sreg) ops)).1 = some p →
      ∀ k : Nat, (k : Int) < ((run (twiQueue.construct mem sreg) ops).iFree -
          (run (twiQueue.construct mem sreg) ops).iCallback) % 16 →
        p ≠ ((run (twiQueue.construct mem sreg) ops).iCallback + k) % 16) ∧
    (∀ a d l f, ∀ k : Nat, (k : Int) < ((run (twiQueue.construct mem sreg) ops).iFree -
          (run (twiQueue.construct mem sreg) ops).iCallback) % 16 →
        (enqueue_rw (run (twiQueue.construct mem sreg) ops) a d l f).2.queue
            (((run (twiQueue.construct mem sreg) ops).iCallback + k) % 16) =
          (run (twiQueue.construct mem sreg) ops).queue
            (((run (twiQueue.construct mem sreg) ops).iCallback + k) % 16)) ∧
    (∀ j : Nat, ((Sim.start mem sreg).run ops).ret.length ≤ j →
      j < ((Sim.start mem sreg).run ops).enq.length →
      ((Sim.start mem sreg).run ops).enq[j]? =
        some (recOf (run (twiQueue.construct mem sreg) ops) ((j % 16 : Nat) : Int))) := by
  have hg := good_of_respects mem sreg ops h
  have hq : ((Sim.start mem sreg).run ops).q = run (twiQueue.construct mem sreg) ops :=
    Sim.run_q ops (Sim.start mem sreg)
  have hv := good_valid _ hg
  rw [hq] at hv
  obtain ⟨-, hb, hf⟩ := hv
  rw [validIndex_iff] at hb hf
  have hne : ∀ k : Nat, (k : Int) < ((run (twiQueue.construct mem sreg) ops).iFree -
      (run (twiQueue.construct mem sreg) ops).iCallback) % 16 →
      (run (twiQueue.construct mem sreg) ops).iFree ≠
        ((run (twiQueue.construct mem sreg) ops).iCallback + k) % 16 := by
    intro k hk
    omega
  refine ⟨?_, ?_, ?_⟩
  · intro p hp k hk
    by_cases hfull : nextIndex (run (twiQueue.construct mem sreg) ops).iFree =
        (run (twiQueue.construct mem sreg) ops).iCallback
    · rw [allocFree_full _ hfull] at hp
      exact absurd hp (by simp)
    · rw [allocFree_ok _ hfull] at hp
      simp only [Option.some.injEq] at hp
      rw [← hp]
      exact hne k hk
  · intro a d l f k hk
    by_cases hfull : nextIndex (run (twiQueue.construct mem sreg) ops).iFree =
        (run (twiQueue.construct mem sreg) ops).iCallback
    · rw [enqueue_rw_full _ a d l f hfull]
    · rw [enqueue_rw_ok _ a d l f hfull]
      exact Function.update_noteq (hne k hk).symm _ _
  · intro j hj1 hj2
    rw [← hq]
    exact hg.slots j hj1 hj2

/-- C18, instantiated at the sample run, where slots 1 and 2 are outstanding
and `allocFree` hands out slot 3. -/
theorem C18_no_reuse_witness :
    Respects (twiQueue.construct mem0 0x80) ops_sample ∧
    (allocFree (run (twiQueue.construct mem0 0x80) ops_sample)).1 = some 3 ∧
    (3 : Int) ≠ ((run (twiQueue.construct mem0 0x80) ops_sample).iCallback + (1 : Nat)) % 16 :=
  ⟨respects_sample, by decide,
    (C18_no_reuse mem0 0x80 ops_sample respects_sample).1 3 (by decide) 1 (by decide)⟩

/-! ## The barrier enqueue -/

theorem wait_called_idle (fuel : Nat) : ∀ q : twiQueue, q._blocking_callback_called = false →
    wait_called id fuel q = none := by
  induction fuel with
  | zero => intro q h; simp [wait_called, h]
  | succ n ih =>
    intro q h
    simp only [wait_called, h, Bool.false_eq_true, if_false, id]
    exact ih q h

theorem enqueue_nop_full (isr : twiQueue → twiQueue) (fuel : Nat) (q : twiQueue)
    (f : callback_fp) (h : nextIndex q.iFree = q.iCallback) :
    enqueue_nop isr fuel q f = some (false, q) := by
  have h1 : allocFree (cli q) = (none, cli q) := allocFree_full (cli q) h
  simp only [enqueue_nop, h1]
  simp [cli]

theorem enqueue_nop_ok (isr : twiQueue → twiQueue) (fuel : Nat) (q : twiQueue)
    (f : callback_fp) (h : nextIndex q.iFree ≠ q.iCallback) :
    enqueue_nop isr fuel q f =
      (wait_called isr fuel (sei { cli q with
          queue := Function.update q.queue q.iFree
            { buff := (q.queue q.iFree).buff, addr := (q.queue q.iFree).addr,
              state := (q.queue q.iFree).state, len := 0, donefunc := f },
          iFree := nextIndex q.iFree })).map
        (fun q5 => (true, { q5 with SREG := q.SREG })) := by
  have h1 : allocFree (cli q) = (some q.iFree, { cli q with iFree := nextIndex q.iFree }) :=
    allocFree_ok (cli q) h
  simp only [enqueue_nop, h1]
  have e : (({ cli q with iFree := nextIndex q.iFree } : twiQueue).store q.iFree
        (fun s => { s with len := 0 })).store q.iFree (fun s => { s with donefunc := f }) =
      { cli q with
          queue := Function.update q.queue q.iFree
            { buff := (q.queue q.iFree).buff, addr := (q.queue q.iFree).addr,
              state := (q.queue q.iFree).state, len := 0, donefunc := f },
          iFree := nextIndex q.iFree } := by
    simp [twiQueue.store, cli]
  rw [e]
  cases wait_called isr fuel _ <;> rfl

/-- C14: the code at the failing input.  On the constructed queue, which is
not full, with the fired flag clear and an interrupt context that does
nothing, `enqueue_nop` has not returned after any number of turns of its
wait loop; on a full queue it returns false at once. -/
theorem C14_enqueue_nop_spins (fuel : Nat) :
    nextIndex (twiQueue.construct mem0 0x80).iFree ≠ (twiQueue.construct mem0 0x80).iCallback ∧
    (twiQueue.construct mem0 0x80)._blocking_callback_called = false ∧
    enqueue_nop id fuel (twiQueue.construct mem0 0x80) (callback_fp.user 1) = none ∧
    enqueue_nop id fuel q_full (callback_fp.user 1) = some (false, q_full) := by
  have hnf : nextIndex (twiQueue.construct mem0 0x80).iFree ≠
      (twiQueue.construct mem0 0x80).iCallback := by decide
  refine ⟨hnf, rfl, ?_, enqueue_nop_full id fuel q_full _ (by decide)⟩
  rw [enqueue_nop_ok id fuel _ _ hnf, wait_called_idle fuel _ rfl]
  rfl

/-- C16. The barrier enqueue allocates a zero-length slot and omits the
dispatch kick.  On a queue with valid cursors that is not full, `enqueue_nop`
advances `iFree` by one, stores `len = 0` and `donefunc` in the slot at the old
`iFree`, leaves that slot's `buff`, `addr` and status and every other slot as
they were, and does not call `kick_isr` (while `enqueue_r` and `enqueue_w`
call it once); it then runs its wait loop on that state.  When the fired flag
is already set the call returns true with exactly these effects.  On a full
queue it returns false and the machine is unchanged. -/
theorem C16_enqueue_nop (q : twiQueue) (hv : validCursors q) (donefunc : callback_fp) :
    (nextIndex q.iFree ≠ q.iCallback →
      (∀ isr fuel, enqueue_nop isr fuel q donefunc =
        (wait_called isr fuel (sei { cli q with
            queue := Function.update q.queue q.iFree
              { buff := (q.queue q.iFree).buff, addr := (q.queue q.iFree).addr,
                state := (q.queue q.iFree).state, len := 0, donefunc := donefunc },
            iFree := nextIndex q.iFree })).map
          (fun q5 => (true, { q5 with SREG := q.SREG }))) ∧
      nextIndex q.iFree = (q.iFree + 1) % 16 ∧
      (q._blocking_callback_called = true → ∀ isr fuel,
        ∃ q', enqueue_nop isr fuel q donefunc = some (true, q') ∧
          q'.iFree = (q.iFree + 1) % 16 ∧ q'.iCmd = q.iCmd ∧ q'.iCallback = q.iCallback ∧
          (q'.queue q.iFree).len = 0 ∧ (q'.queue q.iFree).donefunc = donefunc ∧
          (q'.queue q.iFree).buff = (q.queue q.iFree).buff ∧
          (q'.queue q.iFree).addr = (q.queue q.iFree).addr ∧
          (q'.queue q.iFree).state = (q.queue q.iFree).state ∧
          (∀ i, i ≠ q.iFree → q'.queue i = q.queue i) ∧
          q'.kicks = q.kicks ∧ q'.calls = q.calls ∧ q'.SREG = q.SREG) ∧
      (∀ a d l f, (enqueue_r q a d l f).2.kicks = q.kicks + 1 ∧
        (enqueue_w q a d l f).2.kicks = q.kicks + 1)) ∧
    (nextIndex q.iFree = q.iCallback →
      ∀ isr fuel, enqueue_nop isr fuel q donefunc = some (false, q)) := by
  obtain ⟨-, -, hf⟩ := hv
  rw [validIndex_iff] at hf
  have hn := nextIndex_of_valid q.iFree hf.1 hf.2
  refine ⟨fun hnf => ⟨fun isr fuel => enqueue_nop_ok isr fuel q donefunc hnf, hn, ?_, ?_⟩,
    fun hfull isr fuel => enqueue_nop_full isr fuel q donefunc hfull⟩
  · intro hflag isr fuel
    rw [enqueue_nop_ok isr fuel q donefunc hnf,
      wait_called_done isr fuel _ (by simpa [sei, cli] using hflag)]
    refine ⟨_, rfl, hn, rfl, rfl, ?_, ?_, ?_, ?_, ?_, ?_, rfl, rfl, rfl⟩
    · simp [sei, cli]
    · simp [sei, cli]
    · simp [sei, cli]
    · simp [sei, cli]
    · simp [sei, cli]
    · intro i hi
      simp [sei, cli, Function.update_noteq hi]
  · intro a d l f
    have e1 : enqueue_r q a d l f = _ := enqueue_rw_ok q (addr_read a) d l f hnf
    have e2 : enqueue_w q a d l f = _ := enqueue_rw_ok q (addr_write a) d l f hnf
    rw [e1, e2]
    exact ⟨rfl, rfl⟩

/-- C16, instantiated at a queue on which the fired flag is set, and at the
full queue. -/
theorem C16_enqueue_nop_witness :
    validCursors q_fired ∧ validCursors q_full ∧
    (∃ q', enqueue_nop id 0 q_fired (callback_fp.user 1) = some (true, q') ∧
      q'.iFree = (q_fired.iFree + 1) % 16 ∧ (q'.queue q_fired.iFree).len = 0 ∧
      q'.kicks = q_fired.kicks) ∧
    enqueue_nop id 0 q_full (callback_fp.user 1) = some (false, q_full) :=
  ⟨by decide, by decide,
    (match (C16_enqueue_nop q_fired (by decide) (callback_fp.user 1)).1 (by decide) with
      | ⟨_, _, h3, _⟩ =>
        match h3 rfl id 0 with
        | ⟨q', h, hF, _, _, hl, _, _, _, _, _, hk, _, _⟩ => ⟨q', h, hF, hl, hk⟩),
    (C16_enqueue_nop q_full (by decide) (callback_fp.user 1)).2 (by decide) id 0⟩

/-! ## The interrupt-enable state -/

theorem cli_disables (q : twiQueue) : interrupts_enabled (cli q) = false := by
  unfold interrupts_enabled cli SREG_I
  by_cases h : q.SREG.testBit 7 = true
  · simp only [h, if_true]
    rw [Nat.testBit_to_div_mod] at h ⊢
    simp only [decide_eq_true_eq, decide_eq_false_iff_not] at h ⊢
    omega
  · simp only [h, if_false]
    simpa using h

theorem wait_called_some (isr : twiQueue → twiQueue) (fuel : Nat) :
    ∀ q q', wait_called isr fuel q = some q' → q'._blocking_callback_called = true := by
  induction fuel with
  | zero =>
    intro q q' h
    by_cases hc : q._blocking_callback_called = true
    · simp [wait_called, hc] at h; rw [← h]; exact hc
    · simp [wait_called, hc] at h
  | succ n ih =>
    intro q q' h
    by_cases hc : q._blocking_callback_called = true
    · simp [wait_called, hc] at h; rw [← h]; exact hc
    · simp only [wait_called, hc, if_false] at h
      exact ih _ _ h

theorem enqueue_nop_sreg (isr : twiQueue → twiQueue) (fuel : Nat) (q : twiQueue)
    (f : callback_fp) (r : Bool) (q' : twiQueue)
    (h : enqueue_nop isr fuel q f = some (r, q')) : q'.SREG = q.SREG := by
  by_cases hfull : nextIndex q.iFree = q.iCallback
  · rw [enqueue_nop_full isr fuel q f hfull] at h
    simp only [Option.some.injEq, Prod.mk.injEq] at h
    rw [← h.2]
  · rw [enqueue_nop_ok isr fuel q f hfull] at h
    cases hw : wait_called isr fuel (sei { cli q with
        queue := Function.update q.queue q.iFree
          { buff := (q.queue q.iFree).buff, addr := (q.queue q.iFree).addr,
            state := (q.queue q.iFree).state, len := 0, donefunc := f },
        iFree := nextIndex q.iFree }) with
    | none => rw [hw] at h; simp at h
    | some q5 =>
      rw [hw] at h
      simp only [Option.map_some', Option.some.injEq, Prod.mk.injEq] at h
      rw [← h.2]

theorem enqueue_rwb_sreg (isr : twiQueue → twiQueue) (fuel : Nat) (q : twiQueue)
    (a d l : Nat) (f : callback_fp) (r : Bool) (q' : twiQueue)
    (h : enqueue_rwb isr fuel q a d l f = some (r, q')) : q'.SREG = q.SREG := by
  unfold enqueue_rwb at h
  simp only at h
  split at h
  · simp at h
  · split at h
    · simp at h
    · simp only [Option.some.injEq, Prod.mk.injEq] at h
      rw [← h.2]

theorem nop_retry_sreg (isr : twiQueue → twiQueue) (hisr : ∀ x, (isr x).SREG = x.SREG)
    (inner fuel : Nat) : ∀ q q', nop_retry isr inner fuel q = some q' → q'.SREG = q.SREG := by
  induction fuel with
  | zero =>
    intro q q' h
    simp only [nop_retry] at h
    split at h
    · rename_i q1 he
      simp only [Option.some.injEq] at h
      rw [← h]
      exact enqueue_nop_sreg isr inner q _ true q1 he
    · simp at h
  | succ n ih =>
    intro q q' h
    simp only [nop_retry] at h
    split at h
    · simp at h
    · rename_i q1 he
      simp only [Option.some.injEq] at h
      rw [← h]
      exact enqueue_nop_sreg isr inner q _ true q1 he
    · rename_i q1 he
      have h1 := enqueue_nop_sreg isr inner q _ false q1 he
      have h2 := ih _ _ h
      rw [h2, ← h1]
      split
      · exact hisr q1
      · rfl

theorem enqueue_nop_b_sreg (isr : twiQueue → twiQueue) (hisr : ∀ x, (isr x).SREG = x.SREG)
    (fuel : Nat) (q q' : twiQueue) (h : enqueue_nop_b isr fuel q = some q') :
    q'.SREG = q.SREG := by
  unfold enqueue_nop_b at h
  simp only at h
  split at h
  · simp at h
  · rename_i q3 h3
    have e3 := nop_retry_sreg isr hisr fuel fuel _ _ h3
    split at h
    · simp at h
    · simp only [Option.some.injEq] at h
      rw [← h]
      exact e3

/-! ## The engine model -/

theorem invoke_frame (q : twiQueue) (f : callback_fp) (p : Int) :
    (invoke q f p).queue = q.queue ∧ (invoke q f p).iCmd = q.iCmd ∧
    (invoke q f p).iCallback = q.iCallback ∧ (invoke q f p).iFree = q.iFree ∧
    (invoke q f p).SREG = q.SREG ∧ (invoke q f p).kicks = q.kicks := by
  cases f with
  | NULL => exact ⟨rfl, rfl, rfl, rfl, rfl, rfl⟩
  | blocking_callback =>
    simp only [invoke, blocking_callback]
    split <;> exact ⟨rfl, rfl, rfl, rfl, rfl, rfl⟩
  | user g => exact ⟨rfl, rfl, rfl, rfl, rfl, rfl⟩

theorem engine_complete_sreg (s : Nat) (q : twiQueue) : (engine_complete s q).SREG = q.SREG := by
  have h1 : (if hasCmd q = true then doneCmd q else q).SREG = q.SREG := by
    split <;> rfl
  unfold engine_complete
  simp only
  by_cases hb : hasCallback (if hasCmd q = true then doneCmd q else q) = true
  · simp only [hb, if_true, doneCallback]
    rw [(invoke_frame _ _ _).2.2.2.2.1]
    exact h1
  · simp only [hb, if_false]
    exact h1

theorem enqueue_rw_crit_full (q : twiQueue) (a d l : Nat) (f : callback_fp)
    (h : nextIndex q.iFree = q.iCallback) : enqueue_rw_crit q a d l f = (false, q) := by
  simp only [enqueue_rw_crit, allocFree_full q h]

theorem enqueue_rw_crit_sreg (q : twiQueue) (a d l : Nat) (f : callback_fp) :
    (enqueue_rw_crit q a d l f).2.SREG = q.SREG ∧ (allocFree q).2.SREG = q.SREG := by
  by_cases h : nextIndex q.iFree = q.iCallback
  · rw [enqueue_rw_crit_full q a d l f h, allocFree_full q h]
    exact ⟨rfl, rfl⟩
  · rw [enqueue_rw_crit_ok q a d l f h, allocFree_ok q h]
    exact ⟨rfl, rfl⟩

theorem enabled_of_sreg (q q' : twiQueue) (h : q'.SREG = q.SREG) :
    interrupts_enabled q' = interrupts_enabled q := by
  unfold interrupts_enabled
  rw [h]

/-- C12. The interrupt-enable state is restored on every exit path.  For
every queue state and every value of `SREG` at entry: `enqueue_r` and
`enqueue_w` return, on the success path and on the full path alike, with
`SREG` as at entry; whenever `enqueue_nop` (either path), `enqueue_rb`,
`enqueue_wb` or `enqueue_nop_b` return, `SREG` and so the interrupt-enable
flag are as at entry (for `enqueue_nop_b`, given an interrupt handler that
returns with `SREG` as it found it).  In `enqueue_rw` the call of `allocFree`
and the slot writes, that is `enqueue_rw_crit`, run on the state after `cli()`,
in which interrupts are disabled, and leave them disabled. -/
theorem C12_sreg_restored (isr : twiQueue → twiQueue) (hisr : ∀ x, (isr x).SREG = x.SREG)
    (fuel : Nat) (q : twiQueue) (addr data len : Nat) (donefunc : callback_fp) :
    (enqueue_r q addr data len donefunc).2.SREG = q.SREG ∧
    (enqueue_w q addr data len donefunc).2.SREG = q.SREG ∧
    interrupts_enabled (enqueue_r q addr data len donefunc).2 = interrupts_enabled q ∧
    interrupts_enabled (enqueue_w q addr data len donefunc).2 = interrupts_enabled q ∧
    (∀ isr' fuel' r q', enqueue_nop isr' fuel' q donefunc = some (r, q') →
      q'.SREG = q.SREG ∧ interrupts_enabled q' = interrupts_enabled q) ∧
    (∀ isr' fuel' r q', enqueue_rb isr' fuel' q addr data len donefunc = some (r, q') →
      q'.SREG = q.SREG ∧ interrupts_enabled q' = interrupts_enabled q) ∧
    (∀ isr' fuel' r q', enqueue_wb isr' fuel' q addr data len donefunc = some (r, q') →
      q'.SREG = q.SREG ∧ interrupts_enabled q' = interrupts_enabled q) ∧
    (∀ q', enqueue_nop_b isr fuel q = some q' →
      q'.SREG = q.SREG ∧ interrupts_enabled q' = interrupts_enabled q) ∧
    interrupts_enabled (cli q) = false ∧
    enqueue_rw q addr data len donefunc =
      ((enqueue_rw_crit (cli q) addr data len donefunc).1,
        { (enqueue_rw_crit (cli q) addr data len donefunc).2 with SREG := q.SREG }) ∧
    interrupts_enabled (allocFree (cli q)).2 = false ∧
    interrupts_enabled (enqueue_rw_crit (cli q) addr data len donefunc).2 = false := by
  have hcli := cli_disables q
  have hcrit := enqueue_rw_crit_sreg (cli q) addr data len donefunc
  refine ⟨rfl, rfl, rfl, rfl, ?_, ?_, ?_, ?_, hcli, rfl, ?_, ?_⟩
  · intro isr' fuel' r q' h
    have e := enqueue_nop_sreg isr' fuel' q donefunc r q' h
    exact ⟨e, enabled_of_sreg _ _ e⟩
  · intro isr' fuel' r q' h
    have e := enqueue_rwb_sreg isr' fuel' q (addr_read addr) data len donefunc r q' h
    exact ⟨e, enabled_of_sreg _ _ e⟩
  · intro isr' fuel' r q' h
    have e := enqueue_rwb_sreg isr' fuel' q (addr_write addr) data len donefunc r q' h
    exact ⟨e, enabled_of_sreg _ _ e⟩
  · intro q' h
    have e := enqueue_nop_b_sreg isr hisr fuel q q' h
    exact ⟨e, enabled_of_sreg _ _ e⟩
  · rw [← hcli]
    exact enabled_of_sreg _ _ hcrit.2
  · rw [← hcli]
    exact enabled_of_sreg _ _ hcrit.1

/-- C12, instantiated with the engine that reports success, on the
constructed queue entered with interrupts enabled (`SREG = 0x80`): the
blocking barrier returns, and returns with interrupts enabled. -/
theorem C12_sreg_restored_witness :
    (∀ x, (engine_complete 1 x).SREG = x.SREG) ∧
    (enqueue_nop_b (engine_complete 1) 1 (twiQueue.construct mem0 0x80)).isSome = true ∧
    (∀ q', enqueue_nop_b (engine_complete 1) 1 (twiQueue.construct mem0 0x80) = some q' →
      q'.SREG = 0x80 ∧ interrupts_enabled q' = true) ∧
    interrupts_enabled (enqueue_r (twiQueue.construct mem0 0x80) 0x50 100 3
      callback_fp.NULL).2 = true :=
  ⟨engine_complete_sreg 1, by decide,
    (C12_sreg_restored (engine_complete 1) (engine_complete_sreg 1) 1
      (twiQueue.construct mem0 0x80) 0x50 100 3 callback_fp.NULL).2.2.2.2.2.2.2.1,
    (C12_sreg_restored (engine_complete 1) (engine_complete_sreg 1) 1
      (twiQueue.construct mem0 0x80) 0x50 100 3 callback_fp.NULL).2.2.1⟩

/-! ## The blocking enqueue against the engine model -/

theorem retire_fields (s : Nat) (q1 : twiQueue) :
    (doneCallback (invoke (q1.store q1.iCallback (fun x => { x with state := s }))
        (currCallback (q1.store q1.iCallback (fun x => { x with state := s }))).donefunc
        q1.iCallback)).iFree = q1.iFree ∧
    (doneCallback (invoke (q1.store q1.iCallback (fun x => { x with state := s }))
        (currCallback (q1.store q1.iCallback (fun x => { x with state := s }))).donefunc
        q1.iCallback)).iCmd = q1.iCmd ∧
    (doneCallback (invoke (q1.store q1.iCallback (fun x => { x with state := s }))
        (currCallback (q1.store q1.iCallback (fun x => { x with state := s }))).donefunc
        q1.iCallback)).iCallback = nextIndex q1.iCallback ∧
    (∀ i, ((doneCallback (invoke (q1.store q1.iCallback (fun x => { x with state := s }))
        (currCallback (q1.store q1.iCallback (fun x => { x with state := s }))).donefunc
        q1.iCallback)).queue i).donefunc = (q1.queue i).donefunc) ∧
    ((doneCallback (invoke (q1.store q1.iCallback (fun x => { x with state := s }))
        (currCallback (q1.store q1.iCallback (fun x => { x with state := s }))).donefunc
        q1.iCallback))._blocking_callback_called = true →
      (doneCallback (invoke (q1.store q1.iCallback (fun x => { x with state := s }))
        (currCallback (q1.store q1.iCallback (fun x => { x with state := s }))).donefunc
        q1.iCallback))._blocking_state = s ∨
      (q1._blocking_callback_called = true ∧
        (doneCallback (invoke (q1.store q1.iCallback (fun x => { x with state := s }))
          (currCallback (q1.store q1.iCallback (fun x => { x with state := s }))).donefunc
          q1.iCallback))._blocking_state = q1._blocking_state)) ∧
    ((q1.queue q1.iCallback).donefunc = callback_fp.blocking_callback →
      (doneCallback (invoke (q1.store q1.iCallback (fun x => { x with state := s }))
        (currCallback (q1.store q1.iCallback (fun x => { x with state := s }))).donefunc
        q1.iCallback))._blocking_callback_called = true ∧
      (doneCallback (invoke (q1.store q1.iCallback (fun x => { x with state := s }))
        (currCallback (q1.store q1.iCallback (fun x => { x with state := s }))).donefunc
        q1.iCallback))._blocking_state = s) := by
  have hcur : (currCallback (q1.store q1.iCallback (fun x => { x with state := s }))).donefunc =
      (q1.queue q1.iCallback).donefunc := by
    simp [currCallback, twiQueue.store]
  have hq : ∀ i, (((q1.store q1.iCallback (fun x => { x with state := s }))).queue i).donefunc =
      (q1.queue i).donefunc := by
    intro i
    by_cases hi : i = q1.iCallback
    · subst hi; simp [twiQueue.store]
    · simp [twiQueue.store, Function.update_noteq hi]
  rw [hcur]
  obtain ⟨hf1, hf2, hf3, hf4, -, -⟩ := invoke_frame
    (q1.store q1.iCallback (fun x => { x with state := s })) (q1.queue q1.iCallback).donefunc
    q1.iCallback
  refine ⟨?_, ?_, ?_, ?_, ?_, ?_⟩
  · simp only [doneCallback]; rw [hf4]; rfl
  · simp only [doneCallback]; rw [hf2]; rfl
  · simp only [doneCallback]; rw [hf3]; rfl
  · intro i
    simp only [doneCallback]
    rw [hf1]
    exact hq i
  · cases hd : (q1.queue q1.iCallback).donefunc with
    | NULL => intro h; exact Or.inr ⟨h, rfl⟩
    | blocking_callback =>
      intro _
      left
      simp only [doneCallback, invoke, blocking_callback]
      split <;> simp [twiQueue.store]
    | user g => intro h; exact Or.inr ⟨h, rfl⟩
  · intro hd
    rw [hd]
    simp only [doneCallback, invoke, blocking_callback]
    split <;> simp [twiQueue.store]

theorem engine_fields (s : Nat) (q : twiQueue) :
    (engine_complete s q).iFree = q.iFree ∧
    (engine_complete s q).iCmd = (if q.iCmd ≠ q.iFree then nextIndex q.iCmd else q.iCmd) ∧
    (∀ i, ((engine_complete s q).queue i).donefunc = (q.queue i).donefunc) ∧
    ((engine_complete s q)._blocking_callback_called = true →
      (engine_complete s q)._blocking_state = s ∨
      (q._blocking_callback_called = true ∧
        (engine_complete s q)._blocking_state = q._blocking_state)) ∧
    (q.iCallback = (if q.iCmd ≠ q.iFree then nextIndex q.iCmd else q.iCmd) →
      (engine_complete s q).iCallback = q.iCallback) ∧
    (q.iCallback ≠ (if q.iCmd ≠ q.iFree then nextIndex q.iCmd else q.iCmd) →
      (engine_complete s q).iCallback = nextIndex q.iCallback ∧
      ((q.queue q.iCallback).donefunc = callback_fp.blocking_callback →
        (engine_complete s q)._blocking_callback_called = true ∧
        (engine_complete s q)._blocking_state = s)) := by
  obtain ⟨q1, hq1⟩ : ∃ q1, q1 = (if hasCmd q = true then doneCmd q else q) := ⟨_, rfl⟩
  have a1 : q1.iFree = q.iFree := by rw [hq1]; split <;> rfl
  have a2 : q1.iCmd = (if q.iCmd ≠ q.iFree then nextIndex q.iCmd else q.iCmd) := by
    rw [hq1]
    by_cases hc : q.iCmd = q.iFree
    · simp [hasCmd, hc]
    · simp [hasCmd, hc, doneCmd]
  have a3 : q1.queue = q.queue := by rw [hq1]; split <;> rfl
  have a4 : q1.iCallback = q.iCallback := by rw [hq1]; split <;> rfl
  have a5 : q1._blocking_callback_called = q._blocking_callback_called := by
    rw [hq1]; split <;> rfl
  have a6 : q1._blocking_state = q._blocking_state := by rw [hq1]; split <;> rfl
  have he : engine_complete s q =
      (if hasCallback q1 = true then
        doneCallback (invoke (q1.store q1.iCallback (fun x => { x with state := s }))
          (currCallback (q1.store q1.iCallback (fun x => { x with state := s }))).donefunc
          q1.iCallback)
      else q1) := by
    rw [hq1]; rfl
  obtain ⟨r1, r2, r3, r4, r5, r6⟩ := retire_fields s q1
  by_cases hb : q1.iCallback = q1.iCmd
  · have hcb : hasCallback q1 = false := by simp [hasCallback, hb]
    rw [he]
    simp only [hcb, Bool.false_eq_true, if_false]
    refine ⟨a1, a2, fun i => by rw [a3], ?_, fun _ => a4, ?_⟩
    · intro h
      exact Or.inr ⟨by rw [← a5]; exact h, a6⟩
    · intro hne
      rw [← a2, ← a4] at hne
      exact absurd hb hne
  · have hcb : hasCallback q1 = true := by simp [hasCallback, hb]
    rw [he]
    simp only [hcb, if_true]
    refine ⟨r1.trans a1, r2.trans a2, fun i => by rw [r4 i, a3], ?_, ?_, ?_⟩
    · intro h
      rcases r5 h with h1 | ⟨h1, h2⟩
      · exact Or.inl h1
      · exact Or.inr ⟨by rw [← a5]; exact h1, by rw [h2, a6]⟩
    · intro heq
      rw [← a2, ← a4] at heq
      exact absurd heq hb
    · intro _
      refine ⟨by rw [r3, a4], ?_⟩
      intro hd
      exact r6 (by rw [a4, a3]; exact hd)

theorem dist_step (f x : Int) (hf : 0 ≤ f ∧ f < 16) (hx : 0 ≤ x ∧ x < 16) (hne : x ≠ f) :
    (f - (x + 1) % 16) % 16 = (f - x) % 16 - 1 ∧ 1 ≤ (f - x) % 16 ∧ (f - x) % 16 ≤ 15 := by
  omega

theorem waiting_step (s : Nat) (p : Int) (q : twiQueue) (hw : Waiting s p q)
    (hflag : q._blocking_callback_called = false) :
    ((engine_complete s q)._blocking_callback_called = true ∧
      (engine_complete s q)._blocking_state = s) ∨
    (Waiting s p (engine_complete s q) ∧
      turns_left (engine_complete s q) < turns_left q) := by
  obtain ⟨hc, hb, hf⟩ := hw.valid
  rw [validIndex_iff] at hc hb hf
  have hp0 := hw.p0
  have hp1 := hw.p1
  have hfree := hw.free
  have hnr := hw.notRetired
  have hnc := nextIndex_of_valid q.iCmd hc.1 hc.2
  have hnb := nextIndex_of_valid q.iCallback hb.1 hb.2
  obtain ⟨e1, e2, e3, e4, e5, e6⟩ := engine_fields s q
  have hflag' : (engine_complete s q)._blocking_callback_called = true →
      (engine_complete s q)._blocking_state = s := by
    intro h
    rcases e4 h with h1 | ⟨h1, -⟩
    · exact h1
    · rw [hflag] at h1; exact absurd h1 (by simp)
  have hslot : ((engine_complete s q).queue p).donefunc = callback_fp.blocking_callback := by
    rw [e3 p]; exact hw.slot
  by_cases hcf : q.iCmd = q.iFree
  · -- the dispatch cursor has caught up; the completion cursor advances
    simp only [hcf, ne_eq, not_true_eq_false, if_false] at e2 e5 e6
    obtain ⟨e7, e8⟩ := e6 hnr
    by_cases hbp : q.iCallback = p
    · left
      exact e8 (by rw [hbp]; exact hw.slot)
    · right
      refine ⟨⟨?_, hp0, hp1, by rw [e1]; exact hfree, ?_, hslot, hflag'⟩, ?_⟩
      · refine ⟨?_, ?_, ?_⟩ <;> rw [validIndex_iff]
        · rw [e2]; exact hf
        · rw [e7, hnb]; omega
        · rw [e1]; exact hf
      · rw [e7, e1, hnb]; omega
      · unfold turns_left
        rw [e1, e2, e7, hnb]
        obtain ⟨d1, d2, d3⟩ := dist_step q.iFree q.iCallback hf hb hnr
        rw [d1]
        omega
  · simp only [ne_eq, hcf, not_false_eq_true, if_true] at e2 e5 e6
    by_cases hbc : q.iCallback = nextIndex q.iCmd
    · right
      have e7 := e5 hbc
      refine ⟨⟨?_, hp0, hp1, by rw [e1]; exact hfree, ?_, hslot, hflag'⟩, ?_⟩
      · refine ⟨?_, ?_, ?_⟩ <;> rw [validIndex_iff]
        · rw [e2, hnc]; omega
        · rw [e7]; exact hb
        · rw [e1]; exact hf
      · rw [e7, e1]; exact hnr
      · unfold turns_left
        rw [e1, e2, e7, hnc]
        obtain ⟨d1, d2, d3⟩ := dist_step q.iFree q.iCmd hf hc hcf
        rw [d1]
        omega
    · obtain ⟨e7, e8⟩ := e6 hbc
      by_cases hbp : q.iCallback = p
      · left
        exact e8 (by rw [hbp]; exact hw.slot)
      · right
        refine ⟨⟨?_, hp0, hp1, by rw [e1]; exact hfree, ?_, hslot, hflag'⟩, ?_⟩
        · refine ⟨?_, ?_, ?_⟩ <;> rw [validIndex_iff]
          · rw [e2, hnc]; omega
          · rw [e7, hnb]; omega
          · rw [e1]; exact hf
        · rw [e7, e1, hnb]; omega
        · unfold turns_left
          rw [e1, e2, e7, hnb, hnc]
          obtain ⟨d1, d2, d3⟩ := dist_step q.iFree q.iCmd hf hc hcf
          obtain ⟨d4, d5, d6⟩ := dist_step q.iFree q.iCallback hf hb hnr
          rw [d1, d4]
          omega

theorem wait_engine_returns (s : Nat) (p : Int) (n : Nat) :
    ∀ q, Waiting s p q → turns_left q ≤ n → ∀ fuel, n ≤ fuel →
      ∃ q', wait_called (engine_complete s) fuel q = some q' ∧ q'._blocking_state = s := by
  induction n with
  | zero =>
    intro q hw hn fuel _
    by_cases hflag : q._blocking_callback_called = true
    · exact ⟨q, wait_called_done _ _ _ hflag, hw.flag hflag⟩
    · exfalso
      obtain ⟨hc, hb, hf⟩ := hw.valid
      rw [validIndex_iff] at hc hb hf
      have hnr := hw.notRetired
      unfold turns_left at hn
      omega
  | succ m ih =>
    intro q hw hn fuel hfuel
    by_cases hflag : q._blocking_callback_called = true
    · exact ⟨q, wait_called_done _ _ _ hflag, hw.flag hflag⟩
    · have hff : q._blocking_callback_called = false := by simpa using hflag
      obtain ⟨k, rfl⟩ : ∃ k, fuel = k + 1 := ⟨fuel - 1, by omega⟩
      simp only [wait_called, hff, Bool.false_eq_true, if_false]
      rcases waiting_step s p q hw hff with ⟨h1, h2⟩ | ⟨h1, h2⟩
      · exact ⟨_, wait_called_done _ _ _ h1, h2⟩
      · exact ih _ h1 (by omega) k (by omega)

theorem turns_left_le (q : twiQueue) : turns_left q ≤ 30 := by
  unfold turns_left
  omega

theorem waiting_of_alloc (s : Nat) (q : twiQueue) (a d l : Nat) (hv : validCursors q)
    (hnf : nextIndex q.iFree ≠ q.iCallback)
    (hflag : q._blocking_callback_called = true → q._blocking_state = s) :
    Waiting s q.iFree (sei (enqueue_rw_crit q a d l callback_fp.blocking_callback).2) := by
  obtain ⟨hc, hb, hf⟩ := hv
  have hf' := (validIndex_iff _).1 hf
  have hn := nextIndex_of_valid q.iFree hf'.1 hf'.2
  rw [enqueue_rw_crit_ok q a d l _ hnf]
  refine ⟨⟨hc, hb, ?_⟩, hf'.1, hf'.2, hn, ?_, ?_, hflag⟩
  · simp only [sei, validIndex_iff]
    rw [hn]; omega
  · simp only [sei]
    exact fun e => hnf e.symm
  · simp [sei]

theorem retry_engine_returns (s a d l : Nat) (q : twiQueue) (hv : validCursors q)
    (hflag : q._blocking_callback_called = false) (fuel : Nat) (hfuel : 1 ≤ fuel) :
    ∃ q4 p, enqueue_retry (engine_complete s) a d l fuel q = some q4 ∧
      Waiting s p (sei q4) := by
  by_cases hnf : nextIndex q.iFree ≠ q.iCallback
  · exact ⟨_, q.iFree, enqueue_retry_ok _ a d l fuel q hnf,
      waiting_of_alloc s q a d l hv hnf (by rw [hflag]; simp)⟩
  · have hfull : nextIndex q.iFree = q.iCallback := by simpa using hnf
    obtain ⟨k, rfl⟩ : ∃ k, fuel = k + 1 := ⟨fuel - 1, by omega⟩
    obtain ⟨hc, hb, hf⟩ := hv
    have hc' := (validIndex_iff _).1 hc
    have hb' := (validIndex_iff _).1 hb
    have hf' := (validIndex_iff _).1 hf
    have hn := nextIndex_of_valid q.iFree hf'.1 hf'.2
    have hnc := nextIndex_of_valid q.iCmd hc'.1 hc'.2
    have hnb := nextIndex_of_valid q.iCallback hb'.1 hb'.2
    obtain ⟨e1, e2, e3, e4, e5, e6⟩ := engine_fields s (sei q)
    have hretire : (sei q).iCallback ≠
        (if (sei q).iCmd ≠ (sei q).iFree then nextIndex (sei q).iCmd else (sei q).iCmd) := by
      simp only [sei]
      split <;> omega
    obtain ⟨e7, -⟩ := e6 hretire
    obtain ⟨q', hq'⟩ : ∃ q', q' = cli (engine_complete s (sei q)) := ⟨_, rfl⟩
    have b1 : q'.iFree = q.iFree := by rw [hq']; simpa [cli, sei] using e1
    have b2 : q'.iCallback = nextIndex q.iCallback := by rw [hq']; simpa [cli, sei] using e7
    have b3 : validIndex q'.iCmd = true := by
      rw [hq', validIndex_iff]
      simp only [cli]
      rw [e2]
      simp only [sei]
      split <;> omega
    have hv' : validCursors q' := by
      refine ⟨b3, ?_, ?_⟩ <;> rw [validIndex_iff]
      · rw [b2, hnb]; omega
      · rw [b1]; exact hf'
    have hnf' : nextIndex q'.iFree ≠ q'.iCallback := by
      rw [b1, b2, hn, hnb]; omega
    have hflag' : q'._blocking_callback_called = true → q'._blocking_state = s := by
      rw [hq']
      simp only [cli]
      intro h
      rcases e4 h with h1 | ⟨h1, -⟩
      · exact h1
      · simp only [sei] at h1
        rw [hflag] at h1; exact absurd h1 (by simp)
    refine ⟨_, q'.iFree, ?_, waiting_of_alloc s q' a d l hv' hnf' hflag'⟩
    simp only [enqueue_retry, enqueue_rw_crit_full q a d l _ hfull]
    rw [← hq']
    exact enqueue_retry_ok _ a d l k q' hnf'

theorem enqueue_rwb_engine_returns (s : Nat) (q : twiQueue) (hv : validCursors q)
    (fuel a d l : Nat) (f : callback_fp) (hfuel : 31 ≤ fuel) :
    ∃ q', enqueue_rwb (engine_complete s) fuel q a d l f = some (success_of s, q') ∧
      q'._blocking_state = s := by
  obtain ⟨q3, hq3⟩ : ∃ q3, q3 = cli { { q with _blocking_callback_called := false } with
      _blocking_donefunc := f } := ⟨_, rfl⟩
  have hv3 : validCursors q3 := by rw [hq3]; exact hv
  have hflag3 : q3._blocking_callback_called = false := by rw [hq3]; rfl
  obtain ⟨q4, p, h4, hw⟩ := retry_engine_returns s a d l q3 hv3 hflag3 fuel (by omega)
  obtain ⟨q5, h5, hs⟩ := wait_engine_returns s p 30 (sei q4) hw (turns_left_le _) fuel
    (by omega)
  unfold enqueue_rwb
  simp only
  rw [← hq3, h4]
  simp only [h5]
  exact ⟨{ q5 with SREG := q.SREG }, by simp only [hs], hs⟩

theorem enqueue_retry_char (isr : twiQueue → twiQueue) (a d l : Nat) :
    ∀ (fuel : Nat) (q q4 : twiQueue), enqueue_retry isr a d l fuel q = some q4 →
      ∃ n, n ≤ fuel ∧
        (∀ k, k < n →
          enqueue_rw_crit (retry_state isr k q) a d l callback_fp.blocking_callback =
            (false, retry_state isr k q)) ∧
        enqueue_rw_crit (retry_state isr n q) a d l callback_fp.blocking_callback =
          (true, q4) := by
  intro fuel
  induction fuel with
  | zero =>
    intro q q4 h
    by_cases hfull : nextIndex q.iFree = q.iCallback
    · simp [enqueue_retry, enqueue_rw_crit_full q a d l _ hfull] at h
    · rw [enqueue_retry_ok isr a d l 0 q hfull] at h
      simp only [Option.some.injEq] at h
      refine ⟨0, le_refl _, fun k hk => absurd hk (by omega), ?_⟩
      show enqueue_rw_crit q a d l callback_fp.blocking_callback = (true, q4)
      rw [← h, enqueue_rw_crit_ok q a d l _ hfull]
  | succ m ih =>
    intro q q4 h
    by_cases hfull : nextIndex q.iFree = q.iCallback
    · simp only [enqueue_retry, enqueue_rw_crit_full q a d l _ hfull] at h
      obtain ⟨n, hn, hfail, hok⟩ := ih _ _ h
      refine ⟨n + 1, by omega, ?_, hok⟩
      intro k hk
      cases k with
      | zero => exact enqueue_rw_crit_full q a d l _ hfull
      | succ j => exact hfail j (by omega)
    · rw [enqueue_retry_ok isr a d l (m + 1) q hfull] at h
      simp only [Option.some.injEq] at h
      refine ⟨0, by omega, fun k hk => absurd hk (by omega), ?_⟩
      show enqueue_rw_crit q a d l callback_fp.blocking_callback = (true, q4)
      rw [← h, enqueue_rw_crit_ok q a d l _ hfull]

theorem enqueue_rw_crit_true (q q4 : twiQueue) (a d l : Nat) (f : callback_fp)
    (h : enqueue_rw_crit q a d l f = (true, q4)) :
    nextIndex q.iFree ≠ q.iCallback ∧
    q4.queue q.iFree =
      { buff := d, addr := a, state := (q.queue q.iFree).state, len := l, donefunc := f } ∧
    q4.iFree = nextIndex q.iFree ∧ q4.kicks = q.kicks + 1 := by
  by_cases hfull : nextIndex q.iFree = q.iCallback
  · rw [enqueue_rw_crit_full q a d l f hfull] at h
    simp at h
  · rw [enqueue_rw_crit_ok q a d l f hfull] at h
    simp only [Prod.mk.injEq, true_and] at h
    rw [← h]
    exact ⟨hfull, by simp, rfl, rfl⟩

/-- C11. The blocking enqueue never reports 'full'.  Whenever `enqueue_rwb`
returns, from any queue state and for any behaviour of the interrupt context:
its retry loop made some number `n` of attempts that found the queue full and
changed nothing, then exactly one attempt that allocated the slot at `iFree`
and stored the record there with the bridging callback as `donefunc`; the
wait loop then ran until the fired flag was set; and the value returned is the
success bit of the status captured, not the result of an attempt.
`enqueue_rb` and `enqueue_wb` are this function with the encoded address.
With the engine that completes one transaction each time interrupts are
enabled, the call returns from every queue state with valid cursors, a full
one included, as soon as the fuel allows 31 turns, and returns the success bit
of the status the engine reports. -/
theorem C11_blocking_never_full (isr : twiQueue → twiQueue) (fuel : Nat) (q : twiQueue)
    (addr_rw data len : Nat) (donefunc : callback_fp)
    (h : (enqueue_rwb isr fuel q addr_rw data len donefunc).isSome = true) :
    (∃ n q4 q5, n ≤ fuel ∧
      (∀ k, k < n →
        enqueue_rw_crit
            (retry_state isr k (cli { { q with _blocking_callback_called := false } with
              _blocking_donefunc := donefunc }))
            addr_rw data len callback_fp.blocking_callback =
          (false, retry_state isr k (cli { { q with _blocking_callback_called := false } with
              _blocking_donefunc := donefunc }))) ∧
      enqueue_rw_crit
          (retry_state isr n (cli { { q with _blocking_callback_called := false } with
            _blocking_donefunc := donefunc }))
          addr_rw data len callback_fp.blocking_callback = (true, q4) ∧
      (q4.queue (retry_state isr n (cli { { q with _blocking_callback_called := false } with
          _blocking_donefunc := donefunc })).iFree).donefunc = callback_fp.blocking_callback ∧
      (q4.queue (retry_state isr n (cli { { q with _blocking_callback_called := false } with
          _blocking_donefunc := donefunc })).iFree).buff = data ∧
      (q4.queue (retry_state isr n (cli { { q with _blocking_callback_called := false } with
          _blocking_donefunc := donefunc })).iFree).addr = addr_rw ∧
      (q4.queue (retry_state isr n (cli { { q with _blocking_callback_called := false } with
          _blocking_donefunc := donefunc })).iFree).len = len ∧
      q4.iFree = nextIndex (retry_state isr n (cli { { q with
          _blocking_callback_called := false } with _blocking_donefunc := donefunc })).iFree ∧
      wait_called isr fuel (sei q4) = some q5 ∧
      q5._blocking_callback_called = true ∧
      enqueue_rwb isr fuel q addr_rw data len donefunc =
        some (success_of q5._blocking_state, { q5 with SREG := q.SREG })) ∧
    (∀ addr,
      enqueue_rb isr fuel q addr data len donefunc =
        enqueue_rwb isr fuel q (addr_read addr) data len donefunc ∧
      enqueue_wb isr fuel q addr data len donefunc =
        enqueue_rwb isr fuel q (addr_write addr) data len donefunc) ∧
    (∀ s q0 fuel', validCursors q0 → 31 ≤ fuel' →
      ∃ q', enqueue_rwb (engine_complete s) fuel' q0 addr_rw data len donefunc =
          some (success_of s, q') ∧ q'._blocking_state = s) := by
  refine ⟨?_, fun addr => ⟨rfl, rfl⟩, ?_⟩
  · unfold enqueue_rwb at h ⊢
    simp only at h ⊢
    cases h4 : enqueue_retry isr addr_rw data len fuel
        (cli { { q with _blocking_callback_called := false } with
          _blocking_donefunc := donefunc }) with
    | none => rw [h4] at h; simp at h
    | some q4 =>
      rw [h4] at h
      simp only at h ⊢
      cases h5 : wait_called isr fuel (sei q4) with
      | none => rw [h5] at h; simp at h
      | some q5 =>
        obtain ⟨n, hn, hfail, hok⟩ := enqueue_retry_char isr addr_rw data len fuel _ _ h4
        obtain ⟨-, hslot, hfree, -⟩ := enqueue_rw_crit_true _ _ _ _ _ _ hok
        refine ⟨n, q4, q5, hn, hfail, hok, ?_, ?_, ?_, ?_, hfree, h5,
          wait_called_some isr fuel _ _ h5, rfl⟩
        · rw [hslot]
        · rw [hslot]
        · rw [hslot]
        · rw [hslot]
  · intro s q0 fuel' hv hfuel
    exact enqueue_rwb_engine_returns s q0 hv fuel' addr_rw data len donefunc hfuel

/-- C11, instantiated with the engine that reports success to a call made on
the constructed queue. -/
theorem C11_blocking_never_full_witness :
    (enqueue_rwb (engine_complete 1) 1 (twiQueue.construct mem0 0x80) 0xA0 100 3
      (callback_fp.user 1)).isSome = true ∧
    (∀ addr,
      enqueue_rb (engine_complete 1) 1 (twiQueue.construct mem0 0x80) addr 100 3
          (callback_fp.user 1) =
        enqueue_rwb (engine_complete 1) 1 (twiQueue.construct mem0 0x80) (addr_read addr) 100 3
          (callback_fp.user 1) ∧
      enqueue_wb (engine_complete 1) 1 (twiQueue.construct mem0 0x80) addr 100 3
          (callback_fp.user 1) =
        enqueue_rwb (engine_complete 1) 1 (twiQueue.construct mem0 0x80) (addr_write addr) 100 3
          (callback_fp.user 1)) ∧
    (∃ q', enqueue_rwb (engine_complete 1) 31 q_full 0xA0 100 3 (callback_fp.user 1) =
        some (success_of 1, q') ∧ q'._blocking_state = 1) :=
  ⟨by decide,
    (C11_blocking_never_full (engine_complete 1) 1 (twiQueue.construct mem0 0x80) 0xA0 100 3
      (callback_fp.user 1) (by decide)).2.1,
    (C11_blocking_never_full (engine_complete 1) 1 (twiQueue.construct mem0 0x80) 0xA0 100 3
      (callback_fp.user 1) (by decide)).2.2 1 q_full 31 (by decide) (by decide)⟩

end TWIMaster
